import Mathlib

/-!
Shallow embedding of the murphy resolver target engine (src target code:
`create_targets`, `older_than_facts`, `older_than_targets`,
`save_fact_stamps`/`restore_fact_stamps`, `save_target_stamps`/
`restore_target_stamps`, `update_target_stamps`, `update_target`,
`update_target_by_name`, `update_target_by_id`, `autoupdate_target`).

Machine integers: stamps are `uint32_t` in C and modelled as `Nat`
(the code only writes values obtained from `fact_stamp`, compares with `>`
and copies them; no arithmetic overflows are reachable).  Script execution
statuses are C `int`, modelled as `Int`.  The external collaborators
(fact store, scripting engine, transactions) are modelled as an explicit
environment `Env`; memory allocation is modelled as succeeding.
-/

namespace Murphy

/-- C constant `EINVAL`. -/
def EINVAL : Nat := 22

/-- C constant `ENOENT`. -/
def ENOENT : Nat := 2

/-- An opaque compiled update procedure (`mrp_scriptlet_t`); only its
identity matters to the engine. -/
structure Script where
  source : String
deriving DecidableEq, Repr

/-- `target_t`: the fields the update pass reads or writes.
`update_facts`/`update_targets` are sentinel-terminated C int arrays,
modelled as lists of the non-negative entries before the sentinel;
`update_facts == NULL` is `none`.  `fact_stamps` is the parallel
`uint32_t` array, `stamp` the target's own stamp. -/
structure Target where
  name : String
  update_facts : Option (List Nat)
  fact_stamps : List Nat
  update_targets : List Nat
  stamp : Nat
deriving DecidableEq, Repr

instance : Inhabited Target :=
  ⟨{ name := "", update_facts := none, fact_stamps := [],
     update_targets := [], stamp := 0 }⟩

/-- `mrp_resolver_t`: the target array, the fact count and the fact
store's current stamps (`fact_stamp(r, id)` reads `factStamps`). -/
structure Resolver where
  targets : List Target
  nfact : Nat
  factStamps : List Nat
deriving DecidableEq, Repr

/-- `fact_stamp(r, id)`: current stamp of fact `id` in the store. -/
def fact_stamp (r : Resolver) (id : Nat) : Nat :=
  r.factStamps.getD id 0

/-- `r->targets + id` (read). -/
def getTarget (r : Resolver) (id : Nat) : Target :=
  r.targets.getD id default

/-- In-place mutation of `r->targets[id]`. -/
def setTarget (r : Resolver) (id : Nat) (t : Target) : Resolver :=
  { r with targets := r.targets.set id t }

/-- `older_than_facts(r, t)`: TRUE when `update_facts` is NULL, else TRUE
iff some tracked fact's current stamp exceeds the cached
`fact_stamps[i]`. -/
def older_than_facts (r : Resolver) (t : Target) : Bool :=
  match t.update_facts with
  | none => true
  | some fs =>
      (List.range fs.length).any fun i =>
        decide (t.fact_stamps.getD i 0 < fact_stamp r (fs.getD i 0))

/-- `older_than_targets(r, t)`: TRUE iff some target listed in
`t->update_targets` has a stamp greater than `t->stamp`. -/
def older_than_targets (r : Resolver) (t : Target) : Bool :=
  t.update_targets.any fun id => decide (t.stamp < (getTarget r id).stamp)

/-- `save_fact_stamps(r, t, buf)`: copy `t`'s cached fact stamps into the
flat buffer at offset `tid * nfact` (`tid` is `t - r->targets`). -/
def save_fact_stamps (nfact : Nat) (tid : Nat) (t : Target)
    (buf : List Nat) : List Nat :=
  match t.update_facts with
  | none => buf
  | some fs =>
      (List.range fs.length).foldl
        (fun b i => b.set (tid * nfact + i) (t.fact_stamps.getD i 0)) buf

/-- `restore_fact_stamps(r, t, buf)`: overwrite `t`'s cached fact stamps
from the flat buffer at offset `tid * nfact`. -/
def restore_fact_stamps (nfact : Nat) (tid : Nat) (t : Target)
    (buf : List Nat) : Target :=
  match t.update_facts with
  | none => t
  | some fs =>
      { t with
        fact_stamps :=
          (List.range fs.length).foldl
            (fun s i => s.set i (buf.getD (tid * nfact + i) 0))
            t.fact_stamps }

/-- `save_target_stamps(r, t, buf)`: save the fact stamps of every target
listed in `t->update_targets`. -/
def save_target_stamps (r : Resolver) (tid : Nat) (buf : List Nat) :
    List Nat :=
  (getTarget r tid).update_targets.foldl
    (fun b id => save_fact_stamps r.nfact id (getTarget r id) b) buf

/-- `restore_target_stamps(r, t, buf)`: restore the fact stamps of every
target listed in `t->update_targets`. -/
def restore_target_stamps (r : Resolver) (tid : Nat) (buf : List Nat) :
    Resolver :=
  (getTarget r tid).update_targets.foldl
    (fun r' id =>
      setTarget r' id (restore_fact_stamps r'.nfact id (getTarget r' id) buf))
    r

/-- `update_target_stamps(r, t)`: refresh `t`'s cached fact stamps to the
facts' current stamps. -/
def update_target_stamps (r : Resolver) (t : Target) : Target :=
  match t.update_facts with
  | none => t
  | some fs =>
      { t with
        fact_stamps :=
          (List.range fs.length).foldl
            (fun s i => s.set i (fact_stamp r (fs.getD i 0)))
            t.fact_stamps }

/-- External collaborators of one update request: `exec id fs` runs the
script bound to target `id` (`mrp_execute_script` with the shared context
`r->ctbl`) in a fact world `fs`, returning the C int status and the new
fact stamps (procedures may write facts through the store); `txOpen`
whether `start_transaction` yields a valid handle (`txErrno` the errno it
leaves); `commitOk` whether `commit_transaction` returns true
(`commitErrno` its errno). -/
structure Env where
  exec : Nat → List Nat → Int × List Nat
  txOpen : Bool
  txErrno : Nat
  commitOk : Bool
  commitErrno : Nat

/-- The dependency walk of `update_target` (the `for` loop over
`t->update_targets`): carries the running `status` and `needs_update`,
returns them with the mutated resolver plus the list of executed target
indices and their execution statuses (in order). -/
def walkDeps (env : Env) (tid : Nat) :
    List Nat → Resolver → Int → Bool →
    Int × Resolver × Bool × List Nat × List Int
  | [], r, st, nu => (st, r, nu, [], [])
  | id :: rest, r, st, nu =>
      if id = tid then (st, r, nu, [], [])
      else
        let dep := getTarget r id
        if older_than_facts r dep || older_than_targets r dep then
          let p := env.exec id r.factStamps
          let r' := { r with factStamps := p.2 }
          if p.1 ≤ 0 then (p.1, r', true, [id], [p.1])
          else
            let r'' := setTarget r' id (update_target_stamps r' dep)
            let q := walkDeps env tid rest r'' p.1 true
            (q.1, q.2.1, q.2.2.1, id :: q.2.2.2.1, p.1 :: q.2.2.2.2)
        else walkDeps env tid rest r st nu

/-- The pre-commit phase of one `update_target` call. -/
structure PassOut where
  status : Int
  resolver : Resolver
  executed : List Nat
  statuses : List Int
deriving DecidableEq, Repr

/-- Lines 266-294 of `update_target`: initialize
`needs_update := older_than_facts(r, t)`, walk the dependencies, then
execute the subject's own script when `needs_update` survived and no
execution failed, refreshing its fact stamps on success. -/
def updatePass (env : Env) (r : Resolver) (tid : Nat) : PassOut :=
  let t := getTarget r tid
  let w := walkDeps env tid t.update_targets r 1 (older_than_facts r t)
  let st := w.1
  let r1 := w.2.1
  let nu := w.2.2.1
  let ex := w.2.2.2.1
  let sts := w.2.2.2.2
  if nu && decide (0 < st) then
    let p := env.exec tid r1.factStamps
    let r2 := { r1 with factStamps := p.2 }
    if 0 < p.1 then
      { status := p.1,
        resolver := setTarget r2 tid (update_target_stamps r2 (getTarget r2 tid)),
        executed := ex ++ [tid], statuses := sts ++ [p.1] }
    else
      { status := p.1, resolver := r2,
        executed := ex ++ [tid], statuses := sts ++ [p.1] }
  else
    { status := st, resolver := r1, executed := ex, statuses := sts }

/-- Observable outcome of an update request.  `txStarted`: whether
`start_transaction` was invoked; `committed` / `rolledBack`: whether
`commit_transaction` succeeded / `rollback_transaction` was called;
`commitAttempted`: whether `commit_transaction` was called. -/
structure UpdateResult where
  status : Int
  resolver : Resolver
  txStarted : Bool
  committed : Bool
  rolledBack : Bool
  commitAttempted : Bool
  executed : List Nat
  statuses : List Int
deriving DecidableEq, Repr

/-- `update_target(r, t)` for `t = r->targets + tid`: open a transaction
(failure returns `-errno`, defaulting to `-EINVAL`), save the dependency
closure's fact stamps into the flat `ntarget * nfact` buffer, run the
pass; on failing status roll back and restore the saved stamps, otherwise
commit — a failed commit restores the stamps and returns a negative
store error without rolling back. -/
def update_target (env : Env) (r : Resolver) (tid : Nat) : UpdateResult :=
  if env.txOpen = false then
    { status := if env.txErrno ≠ 0 then -(env.txErrno : Int) else -(EINVAL : Int),
      resolver := r, txStarted := true, committed := false,
      rolledBack := false, commitAttempted := false,
      executed := [], statuses := [] }
  else
    let buf0 : List Nat := List.replicate (r.targets.length * r.nfact) 0
    let stamps := save_target_stamps r tid buf0
    let p := updatePass env r tid
    if p.status ≤ 0 then
      { status := p.status,
        resolver := restore_target_stamps p.resolver tid stamps,
        txStarted := true, committed := false, rolledBack := true,
        commitAttempted := false, executed := p.executed,
        statuses := p.statuses }
    else if env.commitOk then
      { status := p.status, resolver := p.resolver, txStarted := true,
        committed := true, rolledBack := false, commitAttempted := true,
        executed := p.executed, statuses := p.statuses }
    else
      { status := if env.commitErrno ≠ 0 then -(env.commitErrno : Int)
                  else -(EINVAL : Int),
        resolver := restore_target_stamps p.resolver tid stamps,
        txStarted := true, committed := false, rolledBack := false,
        commitAttempted := true, executed := p.executed,
        statuses := p.statuses }

/-- The result of a request that never reaches `update_target`
(by-name miss / by-id rejection / auto-update absent), returning the C
value `st` with no side effect. -/
def noRequest (r : Resolver) (st : Int) : UpdateResult :=
  { status := st, resolver := r, txStarted := false, committed := false,
    rolledBack := false, commitAttempted := false, executed := [],
    statuses := [] }

/-- `update_target_by_name(r, name)`: linear scan over `r->targets`, call
`update_target` on the first name match, else return FALSE. -/
def update_target_by_name (env : Env) (r : Resolver) (name : String) :
    UpdateResult :=
  match r.targets.findIdx? (fun t => t.name = name) with
  | some i => update_target env r i
  | none => noRequest r 0

/-- Outcome of `update_target_by_id(r, id)` for a C `int` argument:
`ok` when `0 ≤ id < ntarget` (the in-bounds update runs); `oob id` when
`id < 0` — the guard `id < r->ntarget` passes and the code dereferences
`r->targets + id` at a negative offset (undefined behavior, modelled as
this marker); `rejected` when `id ≥ ntarget` (returns FALSE). -/
inductive ByIdResult where
  | ok (res : UpdateResult)
  | oob (id : Int)
  | rejected (res : UpdateResult)

/-- `update_target_by_id(r, id)`: sole bounds check is `id < r->ntarget`. -/
def update_target_by_id (env : Env) (r : Resolver) (id : Int) : ByIdResult :=
  if id < (r.targets.length : Int) then
    if 0 ≤ id then .ok (update_target env r id.toNat)
    else .oob id
  else .rejected (noRequest r 0)

/-- Whether `update_target_by_id` rejected the index (returned FALSE
without attempting any update). -/
def ByIdResult.isRejected : ByIdResult → Bool
  | .rejected _ => true
  | _ => false

/-- Modelled from the spec: `mrp_resolver_update_targetl` is not among the
source files; per the spec it "delegates to `update_by_name` on the
designated target, using an externally supplied default execution
context" — the context is part of `Env`, so the delegate is the by-name
update. -/
def mrp_resolver_update_targetl (env : Env) (r : Resolver) (name : String) :
    UpdateResult :=
  update_target_by_name env r name

/-- The designated auto-update target, as an optional index
(`r->auto_update` is a pointer into `r->targets`, or NULL). -/
structure AutoResolver where
  base : Resolver
  auto_update : Option Nat

/-- `autoupdate_target(r)`: TRUE when no auto-update target is designated,
else delegate by name. -/
def autoupdate_target (env : Env) (ar : AutoResolver) : UpdateResult :=
  match ar.auto_update with
  | some i => mrp_resolver_update_targetl env ar.base (getTarget ar.base i).name
  | none => noRequest ar.base 1

/-- `yy_res_target_t`: one parsed target declaration. -/
structure ParsedTarget where
  name : String
  depends : List String
  script_type : String
  script_source : Option String
deriving DecidableEq, Repr

/-- `yy_res_parser_t`: the parsed declarations and the optional
designated auto-update target name. -/
structure Parser where
  targets : List ParsedTarget
  auto_update : Option String
deriving DecidableEq, Repr

/-- A target record as `create_targets` leaves it (the staleness fields
are produced by later passes outside this file). -/
structure BuiltTarget where
  name : String
  depends : List String
  script : Option Script
deriving DecidableEq, Repr

/-- The failure exits of `create_targets` (each returns -1 in C, with the
errno left by the failing step; the auto-update miss sets
`errno = ENOENT`). -/
inductive BuildError where
  | scriptError (tname : String)
  | factError (dep : String)
  | unknownAutoUpdate (name : String)
deriving DecidableEq, Repr

/-- The errno signalled by each `create_targets` failure exit; the
auto-update miss signals `ENOENT`; the other exits keep the errno left
by the failing collaborator (opaque here, rendered as 0). -/
def BuildError.errno : BuildError → Nat
  | .unknownAutoUpdate _ => ENOENT
  | _ => 0

instance : Inhabited BuiltTarget :=
  ⟨{ name := "", depends := [], script := none }⟩

/-- The script-binding step of one `create_targets` iteration: no source
means no script; otherwise `mrp_create_script` must succeed
(`none` = the -1 exit). -/
def bind_script (mkScript : String → String → Option Script)
    (pt : ParsedTarget) : Option (Option Script) :=
  match pt.script_source with
  | none => some none
  | some src =>
      match mkScript pt.script_type src with
      | none => none
      | some s => some (some s)

/-- The auto-update bookkeeping of one `create_targets` iteration: when a
name was designated and equals this target's name, remember this target's
index (the current accumulator length), else keep the previous value. -/
def next_auto (autoName : Option String) (ptname : String) (accLen : Nat)
    (auto : Option Nat) : Option Nat :=
  match autoName with
  | some an => if an = ptname then some accLen else auto
  | none => auto

/-- The per-declaration loop of `create_targets`: materialize each target
(move name and depends, bind the script via the scripting backend
`mkScript`, register each `$`-prefixed dependency via `create_fact`,
modelled by the success predicate `mkFact` — the first failing
registration aborts), remembering the index of the last target whose name
equals the designated auto-update name.  Allocation is modelled as
succeeding. -/
def create_targets_loop (mkScript : String → String → Option Script)
    (mkFact : String → Bool) (autoName : Option String) :
    List ParsedTarget → List BuiltTarget → Option Nat →
    Except BuildError (List BuiltTarget × Option Nat)
  | [], acc, auto => .ok (acc, auto)
  | pt :: rest, acc, auto =>
      match bind_script mkScript pt with
      | none => .error (.scriptError pt.name)
      | some sc =>
          match pt.depends.find? (fun d => d.startsWith "$" && !(mkFact d)) with
          | some d => .error (.factError d)
          | none =>
              create_targets_loop mkScript mkFact autoName rest
                (acc ++ [{ name := pt.name, depends := pt.depends, script := sc }])
                (next_auto autoName pt.name acc.length auto)

/-- `create_targets(r, parser)`: run the loop, then resolve the designated
auto-update target — a designated name that matched no target fails the
build with `errno = ENOENT`; no designation leaves the reference unset. -/
def create_targets (mkScript : String → String → Option Script)
    (mkFact : String → Bool) (p : Parser) :
    Except BuildError (List BuiltTarget × Option Nat) :=
  match create_targets_loop mkScript mkFact p.auto_update p.targets [] none with
  | .error e => .error e
  | .ok (ts, some i) => .ok (ts, some i)
  | .ok (ts, none) =>
      match p.auto_update with
      | some an => .error (.unknownAutoUpdate an)
      | none => .ok (ts, none)

/-!  Specification-side rendering of the update pass, written from the
claim's words (C2): the walk visits the entries of `update_targets`
strictly before the first occurrence of the subject itself; a visited
dependency is executed exactly when it is stale by `older_than_facts` or
`older_than_targets`; a nonpositive outcome stops the walk with that
status; a positive outcome refreshes the dependency's fact stamps and
continues; the subject's own procedure runs only if no execution failed
and `needs_update` holds.  -/

/-- Spec-side walk over the already-truncated visit list (no self check:
truncation happened up front). -/
def specWalk (env : Env) :
    List Nat → Resolver → Int → Bool →
    Int × Resolver × Bool × List Nat × List Int
  | [], r, st, nu => (st, r, nu, [], [])
  | id :: rest, r, st, nu =>
      let dep := getTarget r id
      if older_than_facts r dep || older_than_targets r dep then
        let p := env.exec id r.factStamps
        let r' := { r with factStamps := p.2 }
        if p.1 ≤ 0 then (p.1, r', true, [id], [p.1])
        else
          let r'' := setTarget r' id (update_target_stamps r' dep)
          let q := specWalk env rest r'' p.1 true
          (q.1, q.2.1, q.2.2.1, id :: q.2.2.2.1, p.1 :: q.2.2.2.2)
      else specWalk env rest r st nu

/-- Spec-side pass: visit the entries up to (and excluding) the first
self entry, then run the subject iff nothing failed and `needs_update`
holds, refreshing its fact stamps on success. -/
def specPass (env : Env) (r : Resolver) (tid : Nat) : PassOut :=
  let t := getTarget r tid
  let visits := t.update_targets.takeWhile (fun id => id ≠ tid)
  let w := specWalk env visits r 1 (older_than_facts r t)
  let st := w.1
  let r1 := w.2.1
  let nu := w.2.2.1
  let ex := w.2.2.2.1
  let sts := w.2.2.2.2
  if nu && decide (0 < st) then
    let p := env.exec tid r1.factStamps
    let r2 := { r1 with factStamps := p.2 }
    if 0 < p.1 then
      { status := p.1,
        resolver := setTarget r2 tid (update_target_stamps r2 (getTarget r2 tid)),
        executed := ex ++ [tid], statuses := sts ++ [p.1] }
    else
      { status := p.1, resolver := r2,
        executed := ex ++ [tid], statuses := sts ++ [p.1] }
  else
    { status := st, resolver := r1, executed := ex, statuses := sts }

/-- Number of tracked facts of a target (0 when `update_facts` is NULL):
the number of slots its `save_fact_stamps`/`restore_fact_stamps` touch. -/
def uflen (t : Target) : Nat := (t.update_facts.getD []).length

/-- Well-formedness of one target id for the flat `ntarget * nfact`
checkpoint buffer, as the allocation in `update_target` assumes: the id
indexes the target array, the target tracks at most `nfact` facts, and
its `fact_stamps` vector has exactly one slot per tracked fact. -/
def sliceOk (r : Resolver) (id : Nat) : Prop :=
  id < r.targets.length ∧
  uflen (getTarget r id) ≤ r.nfact ∧
  (getTarget r id).fact_stamps.length = uflen (getTarget r id)

instance (r : Resolver) (id : Nat) : Decidable (sliceOk r id) := by
  unfold sliceOk
  infer_instance

/-- The execution trace of the dependency walk of `update_target`
(lines 271-287): for each dependency the loop executes, the pair of its
index and the fact stamps immediately after its execution (the stamps
`update_target_stamps` reads at line 285).  This is a projection of
`walkDeps` — same visit order, same staleness test, same stop conditions
— recording when each dependency's freshness re-sync was taken;
`walkWorlds_fst` ties it to `walkDeps`'s executed list. -/
def walkWorlds (env : Env) (tid : Nat) :
    List Nat → Resolver → List (Nat × List Nat)
  | [], _ => []
  | id :: rest, r =>
      if id = tid then []
      else
        let dep := getTarget r id
        if older_than_facts r dep || older_than_targets r dep then
          let p := env.exec id r.factStamps
          if p.1 ≤ 0 then [(id, p.2)]
          else
            (id, p.2) ::
              walkWorlds env tid rest
                (setTarget { r with factStamps := p.2 } id
                  (update_target_stamps { r with factStamps := p.2 } dep))
        else walkWorlds env tid rest r

/-! ### Concrete inputs used by witnesses and counterexamples -/

/-- An environment whose every script execution returns 1 and leaves the
fact store unchanged, with working transactions. -/
def demoEnv : Env :=
  { exec := fun _ fs => (1, fs), txOpen := true, txErrno := 0,
    commitOk := true, commitErrno := 0 }

/-- A single target with no fact dependencies. -/
def tA : Target :=
  { name := "A", update_facts := none, fact_stamps := [],
    update_targets := [0], stamp := 0 }

/-- A registry holding only `tA`. -/
def rA : Resolver := { targets := [tA], nfact := 0, factStamps := [] }

/-- One target that is never stale (an empty tracked-fact list). -/
def tB : Target :=
  { name := "B", update_facts := some [], fact_stamps := [],
    update_targets := [0], stamp := 0 }

/-- Registry on which an update request runs no procedure. -/
def rB : Resolver := { targets := [tB], nfact := 1, factStamps := [5] }

/-- An always-stale dependency target. -/
def tC0 : Target :=
  { name := "C0", update_facts := none, fact_stamps := [],
    update_targets := [0], stamp := 0 }

/-- A subject target depending on `tC0`. -/
def tC1 : Target :=
  { name := "C1", update_facts := some [], fact_stamps := [],
    update_targets := [0, 1], stamp := 0 }

/-- Registry on which an update request executes two procedures. -/
def rC : Resolver := { targets := [tC0, tC1], nfact := 1, factStamps := [7] }

/-- A target tracking fact 0 whose cached stamp 0 is behind the store. -/
def tD : Target :=
  { name := "D", update_facts := some [0], fact_stamps := [0],
    update_targets := [0], stamp := 0 }

/-- Registry on which the subject itself runs and refreshes its stamps. -/
def rD : Resolver := { targets := [tD], nfact := 1, factStamps := [4] }

/-- A parsed input designating an auto-update name matching no target. -/
def pX : Parser :=
  { targets := [{ name := "A", depends := [], script_type := "",
                  script_source := none }],
    auto_update := some "Z" }

/-- An environment whose scripts bump fact 0 on every execution and where
the subject's own script (target 1) fails with status 0. -/
def envBump : Env :=
  { exec := fun i fs => (if i = 1 then 0 else 2, fs.set 0 (fs.getD 0 0 + 1)),
    txOpen := true, txErrno := 0, commitOk := true, commitErrno := 0 }

/-- A dependency target tracking fact 0 with a stale cached stamp. -/
def tE0 : Target :=
  { name := "E0", update_facts := some [0], fact_stamps := [1],
    update_targets := [0], stamp := 0 }

/-- A subject target depending on `tE0` and tracking fact 0. -/
def tE1 : Target :=
  { name := "E1", update_facts := some [0], fact_stamps := [1],
    update_targets := [0, 1], stamp := 0 }

/-- Registry where the dependency runs (mutating stamps) before the
subject's own procedure fails. -/
def rE : Resolver := { targets := [tE0, tE1], nfact := 1, factStamps := [2] }

/-- An environment whose every script succeeds with status 2 and bumps
fact 0, with working transactions. -/
def envS : Env :=
  { exec := fun _ fs => (2, fs.set 0 (fs.getD 0 0 + 1)),
    txOpen := true, txErrno := 0, commitOk := true, commitErrno := 0 }

/-- An environment with successful executions but a failing commit. -/
def envCF : Env :=
  { exec := fun i fs => (if i = 1 then 9 else 2, fs.set 0 (fs.getD 0 0 + 1)),
    txOpen := true, txErrno := 0, commitOk := false, commitErrno := 5 }

/-! ### Structural preservation: the update pass and the stamp
restore only touch `fact_stamps` entries (never `update_facts`,
`update_targets` or `stamp`), keep the target count and the length of
every `fact_stamps` vector, and leave targets without fact dependencies
untouched. -/

/-- `r'` agrees with `r` on everything an update pass cannot change. -/
def preserves (r r' : Resolver) : Prop :=
  r'.targets.length = r.targets.length ∧
  r'.nfact = r.nfact ∧
  ∀ id, (getTarget r' id).update_facts = (getTarget r id).update_facts ∧
        (getTarget r' id).update_targets = (getTarget r id).update_targets ∧
        (getTarget r' id).stamp = (getTarget r id).stamp ∧
        (getTarget r' id).fact_stamps.length =
          (getTarget r id).fact_stamps.length ∧
        ((getTarget r id).update_facts = none →
          (getTarget r' id).fact_stamps = (getTarget r id).fact_stamps)

/-! ### Basic lemmas about the embedded state operations -/

theorem getTarget_setTarget_self {r : Resolver} {id : Nat} (t : Target)
    (h : id < r.targets.length) : getTarget (setTarget r id t) id = t := by
  simp [getTarget, setTarget, List.getD_eq_getElem?_getD, List.getElem?_set_self h]

theorem getTarget_setTarget_ne {r : Resolver} {id id' : Nat} (t : Target)
    (h : id' ≠ id) : getTarget (setTarget r id t) id' = getTarget r id' := by
  simp [getTarget, setTarget, List.getD_eq_getElem?_getD,
    List.getElem?_set_ne (Ne.symm h)]

theorem setTarget_oob {r : Resolver} {id : Nat} (t : Target)
    (h : r.targets.length ≤ id) : setTarget r id t = r := by
  simp [setTarget, List.set_eq_of_length_le h]

theorem length_setTarget (r : Resolver) (id : Nat) (t : Target) :
    (setTarget r id t).targets.length = r.targets.length := by
  simp [setTarget]

theorem getTarget_oob {r : Resolver} {id : Nat} (h : r.targets.length ≤ id) :
    getTarget r id = default := by
  simp [getTarget, List.getD_eq_getElem?_getD, List.getElem?_eq_none h]

/-- A fold writing `f i` at position `po + i` for `i < n` preserves length. -/
theorem foldl_set_po_length (f : Nat → Nat) (po n : Nat) (s : List Nat) :
    ((List.range n).foldl (fun a i => a.set (po + i) (f i)) s).length =
      s.length := by
  induction n with
  | zero => rfl
  | succ m ih =>
      rw [List.range_succ, List.foldl_append]
      simp [List.length_set, ih]

/-- Element description of a fold writing `f i` at position `po + i`. -/
theorem foldl_set_po_getD (f : Nat → Nat) (po n : Nat) (s : List Nat) (j : Nat) :
    ((List.range n).foldl (fun a i => a.set (po + i) (f i)) s).getD j 0 =
      if po ≤ j ∧ j < po + n ∧ j < s.length then f (j - po)
      else s.getD j 0 := by
  induction n with
  | zero =>
      simp only [List.range_zero, List.foldl_nil]
      rw [if_neg (by omega)]
  | succ m ih =>
      rw [List.range_succ, List.foldl_append]
      simp only [List.foldl_cons, List.foldl_nil]
      by_cases hj : j = po + m
      · subst hj
        by_cases hl : po + m < s.length
        · have hl' : po + m <
              ((List.range m).foldl (fun a i => a.set (po + i) (f i)) s).length := by
            rw [foldl_set_po_length]; exact hl
          rw [List.getD_eq_getElem?_getD, List.getElem?_set_self hl']
          rw [if_pos (by omega)]
          simp
        · have hle :
              ((List.range m).foldl (fun a i => a.set (po + i) (f i)) s).length
                ≤ po + m := by
            rw [foldl_set_po_length]; omega
          rw [List.set_eq_of_length_le hle, ih, if_neg (by omega),
            if_neg (by omega)]
      · rw [List.getD_eq_getElem?_getD,
          List.getElem?_set_ne (by omega : po + m ≠ j),
          ← List.getD_eq_getElem?_getD, ih]
        by_cases hc : po ≤ j ∧ j < po + m ∧ j < s.length
        · rw [if_pos hc, if_pos (by omega)]
        · rw [if_neg hc, if_neg (by omega)]

/-- A fold writing `f i` at position `i` for `i < n` preserves length. -/
theorem foldl_set_length (f : Nat → Nat) (n : Nat) (s : List Nat) :
    ((List.range n).foldl (fun a i => a.set i (f i)) s).length = s.length := by
  induction n with
  | zero => rfl
  | succ m ih =>
      rw [List.range_succ, List.foldl_append]
      simp [List.length_set, ih]

/-- Element description of a fold writing `f i` at position `i`. -/
theorem foldl_set_getD (f : Nat → Nat) (n : Nat) (s : List Nat) (j : Nat) :
    ((List.range n).foldl (fun a i => a.set i (f i)) s).getD j 0 =
      if j < n ∧ j < s.length then f j else s.getD j 0 := by
  induction n with
  | zero =>
      simp only [List.range_zero, List.foldl_nil]
      rw [if_neg (by omega)]
  | succ m ih =>
      rw [List.range_succ, List.foldl_append]
      simp only [List.foldl_cons, List.foldl_nil]
      by_cases hj : j = m
      · subst hj
        by_cases hl : j < s.length
        · have hl' : j <
              ((List.range j).foldl (fun a i => a.set i (f i)) s).length := by
            rw [foldl_set_length]; exact hl
          rw [List.getD_eq_getElem?_getD, List.getElem?_set_self hl']
          rw [if_pos (by omega)]
          simp
        · have hle :
              ((List.range j).foldl (fun a i => a.set i (f i)) s).length ≤ j := by
            rw [foldl_set_length]; omega
          rw [List.set_eq_of_length_le hle, ih, if_neg (by omega),
            if_neg (by omega)]
      · rw [List.getD_eq_getElem?_getD,
          List.getElem?_set_ne (by omega : m ≠ j),
          ← List.getD_eq_getElem?_getD, ih]
        by_cases hc : j < m ∧ j < s.length
        · rw [if_pos hc, if_pos (by omega)]
        · rw [if_neg hc, if_neg (by omega)]

theorem list_eq_of_getD {l1 l2 : List Nat} (hlen : l1.length = l2.length)
    (h : ∀ j < l1.length, l1.getD j 0 = l2.getD j 0) : l1 = l2 := by
  apply List.ext_getElem hlen
  intro i h1 h2
  have := h i h1
  rwa [List.getD_eq_getElem l1 0 h1, List.getD_eq_getElem l2 0 h2] at this

theorem preserves_refl (r : Resolver) : preserves r r :=
  ⟨rfl, rfl, fun _ => ⟨rfl, rfl, rfl, rfl, fun _ => rfl⟩⟩

theorem preserves_trans {r1 r2 r3 : Resolver} (h12 : preserves r1 r2)
    (h23 : preserves r2 r3) : preserves r1 r3 := by
  obtain ⟨hl12, hn12, hf12⟩ := h12
  obtain ⟨hl23, hn23, hf23⟩ := h23
  refine ⟨hl23.trans hl12, hn23.trans hn12, fun id => ?_⟩
  obtain ⟨a1, b1, c1, d1, e1⟩ := hf12 id
  obtain ⟨a2, b2, c2, d2, e2⟩ := hf23 id
  exact ⟨a2.trans a1, b2.trans b1, c2.trans c1, d2.trans d1,
    fun hn => (e2 (a1.trans hn)).trans (e1 hn)⟩

theorem preserves_factWorld {r r' : Resolver} (h : preserves r r')
    (fs : List Nat) : preserves r { r' with factStamps := fs } := h

theorem update_target_stamps_update_facts (r : Resolver) (t : Target) :
    (update_target_stamps r t).update_facts = t.update_facts := by
  unfold update_target_stamps
  cases h : t.update_facts <;> simp [h]

theorem update_target_stamps_update_targets (r : Resolver) (t : Target) :
    (update_target_stamps r t).update_targets = t.update_targets := by
  unfold update_target_stamps
  cases h : t.update_facts <;> simp [h]

theorem update_target_stamps_stamp (r : Resolver) (t : Target) :
    (update_target_stamps r t).stamp = t.stamp := by
  unfold update_target_stamps
  cases h : t.update_facts <;> simp [h]

theorem update_target_stamps_length (r : Resolver) (t : Target) :
    (update_target_stamps r t).fact_stamps.length = t.fact_stamps.length := by
  unfold update_target_stamps
  cases h : t.update_facts with
  | none => rfl
  | some fs => exact foldl_set_length _ _ _

theorem update_target_stamps_none {r : Resolver} {t : Target}
    (h : t.update_facts = none) : update_target_stamps r t = t := by
  unfold update_target_stamps
  rw [h]

theorem restore_fact_stamps_update_facts (nf tid : Nat) (t : Target)
    (buf : List Nat) :
    (restore_fact_stamps nf tid t buf).update_facts = t.update_facts := by
  unfold restore_fact_stamps
  cases h : t.update_facts <;> simp [h]

theorem restore_fact_stamps_update_targets (nf tid : Nat) (t : Target)
    (buf : List Nat) :
    (restore_fact_stamps nf tid t buf).update_targets = t.update_targets := by
  unfold restore_fact_stamps
  cases h : t.update_facts <;> simp [h]

theorem restore_fact_stamps_stamp (nf tid : Nat) (t : Target)
    (buf : List Nat) :
    (restore_fact_stamps nf tid t buf).stamp = t.stamp := by
  unfold restore_fact_stamps
  cases h : t.update_facts <;> simp [h]

theorem restore_fact_stamps_length (nf tid : Nat) (t : Target)
    (buf : List Nat) :
    (restore_fact_stamps nf tid t buf).fact_stamps.length =
      t.fact_stamps.length := by
  unfold restore_fact_stamps
  cases h : t.update_facts with
  | none => rfl
  | some fs => exact foldl_set_length _ _ _

theorem restore_fact_stamps_none {nf tid : Nat} {t : Target}
    {buf : List Nat} (h : t.update_facts = none) :
    restore_fact_stamps nf tid t buf = t := by
  unfold restore_fact_stamps
  rw [h]

/-- Replacing target `id` by a record agreeing on the structural fields
keeps `preserves`. -/
theorem preserves_setTarget {r rc : Resolver} (hp : preserves r rc)
    (id : Nat) (t' : Target)
    (h1 : t'.update_facts = (getTarget rc id).update_facts)
    (h2 : t'.update_targets = (getTarget rc id).update_targets)
    (h3 : t'.stamp = (getTarget rc id).stamp)
    (h4 : t'.fact_stamps.length = (getTarget rc id).fact_stamps.length)
    (h5 : (getTarget rc id).update_facts = none →
      t'.fact_stamps = (getTarget rc id).fact_stamps) :
    preserves r (setTarget rc id t') := by
  obtain ⟨hl, hn, hf⟩ := hp
  by_cases hid : id < rc.targets.length
  · refine ⟨by rw [length_setTarget]; exact hl, hn, fun id' => ?_⟩
    by_cases he : id' = id
    · subst he
      rw [getTarget_setTarget_self t' hid]
      obtain ⟨a, b, c, d, e⟩ := hf id'
      exact ⟨h1.trans a, h2.trans b, h3.trans c, h4.trans d,
        fun hn' => (h5 (a.trans hn')).trans (e hn')⟩
    · rw [getTarget_setTarget_ne t' he]
      exact hf id'
  · rw [setTarget_oob t' (by omega)]
    exact ⟨hl, hn, hf⟩

/-- The dependency walk preserves the structural fields. -/
theorem walkDeps_preserves (env : Env) (tid : Nat) (l : List Nat) :
    ∀ (r0 r : Resolver) (st : Int) (nu : Bool), preserves r0 r →
      preserves r0 (walkDeps env tid l r st nu).2.1 := by
  induction l with
  | nil => intro r0 r st nu h; exact h
  | cons id rest ih =>
      intro r0 r st nu h
      unfold walkDeps
      by_cases hid : id = tid
      · rw [if_pos hid]; exact h
      · rw [if_neg hid]
        set dep := getTarget r id with hdep
        by_cases hst : older_than_facts r dep || older_than_targets r dep
        · rw [if_pos hst]
          simp only
          by_cases hle : (env.exec id r.factStamps).1 ≤ 0
          · rw [if_pos hle]; exact h
          · rw [if_neg hle]
            simp only
            apply ih
            apply preserves_setTarget (preserves_factWorld h _)
            · exact update_target_stamps_update_facts _ _
            · exact update_target_stamps_update_targets _ _
            · exact update_target_stamps_stamp _ _
            · exact update_target_stamps_length _ _
            · intro hn
              have hn' : dep.update_facts = none := hn
              rw [update_target_stamps_none hn']
              rfl
        · rw [if_neg hst]; exact ih r0 r st nu h

/-- The whole pre-commit pass preserves the structural fields. -/
theorem updatePass_preserves (env : Env) (r : Resolver) (tid : Nat) :
    preserves r (updatePass env r tid).resolver := by
  unfold updatePass
  simp only
  have hw := walkDeps_preserves env tid (getTarget r tid).update_targets r r 1
    (older_than_facts r (getTarget r tid)) (preserves_refl r)
  set w := walkDeps env tid (getTarget r tid).update_targets r 1
    (older_than_facts r (getTarget r tid)) with hwdef
  by_cases hb : w.2.2.1 && decide (0 < w.1)
  · rw [if_pos hb]
    by_cases hp : 0 < (env.exec tid w.2.1.factStamps).1
    · rw [if_pos hp]
      simp only
      apply preserves_setTarget (preserves_factWorld hw _)
      · exact update_target_stamps_update_facts _ _
      · exact update_target_stamps_update_targets _ _
      · exact update_target_stamps_stamp _ _
      · exact update_target_stamps_length _ _
      · intro hn; rw [update_target_stamps_none hn]
    · rw [if_neg hp]; exact hw
  · rw [if_neg hb]; exact hw

/-- Restoring stamps (a fold of per-target restores over any list)
preserves the structural fields. -/
theorem restore_fold_preserves (buf : List Nat) (l : List Nat) :
    ∀ (r0 rc : Resolver), preserves r0 rc →
      preserves r0
        (l.foldl
          (fun r' id =>
            setTarget r' id (restore_fact_stamps r'.nfact id (getTarget r' id) buf))
          rc) := by
  induction l with
  | nil => intro r0 rc h; exact h
  | cons id rest ih =>
      intro r0 rc h
      simp only [List.foldl_cons]
      apply ih
      apply preserves_setTarget h
      · exact restore_fact_stamps_update_facts _ _ _ _
      · exact restore_fact_stamps_update_targets _ _ _ _
      · exact restore_fact_stamps_stamp _ _ _ _
      · exact restore_fact_stamps_length _ _ _ _
      · intro hn; rw [restore_fact_stamps_none hn]

theorem restore_target_stamps_preserves (r : Resolver) (tid : Nat)
    (buf : List Nat) : preserves r (restore_target_stamps r tid buf) :=
  restore_fold_preserves buf _ r r (preserves_refl r)

/-- The walk never executes the subject itself (it breaks first). -/
theorem walkDeps_executed_ne (env : Env) (tid : Nat) (l : List Nat) :
    ∀ (r : Resolver) (st : Int) (nu : Bool),
      ∀ x ∈ (walkDeps env tid l r st nu).2.2.2.1, x ≠ tid := by
  induction l with
  | nil => intro r st nu x hx; simp [walkDeps] at hx
  | cons id rest ih =>
      intro r st nu x hx
      unfold walkDeps at hx
      by_cases hid : id = tid
      · rw [if_pos hid] at hx; simp at hx
      · rw [if_neg hid] at hx
        by_cases hst : older_than_facts r (getTarget r id) ||
            older_than_targets r (getTarget r id)
        · rw [if_pos hst] at hx
          simp only at hx
          by_cases hle : (env.exec id r.factStamps).1 ≤ 0
          · rw [if_pos hle] at hx
            simp at hx
            omega
          · rw [if_neg hle] at hx
            simp only [List.mem_cons] at hx
            rcases hx with hx | hx
            · omega
            · exact ih _ _ _ x hx
        · rw [if_neg hst] at hx
          exact ih _ _ _ x hx

/-- A walk that executed nothing changed nothing: it returns the incoming
status, resolver and flag. -/
theorem walkDeps_empty_exec (env : Env) (tid : Nat) (l : List Nat) :
    ∀ (r : Resolver) (st : Int) (nu : Bool),
      (walkDeps env tid l r st nu).2.2.2.1 = [] →
      walkDeps env tid l r st nu = (st, r, nu, [], []) := by
  induction l with
  | nil => intro r st nu _; rfl
  | cons id rest ih =>
      intro r st nu hx
      unfold walkDeps at hx ⊢
      by_cases hid : id = tid
      · rw [if_pos hid]
      · rw [if_neg hid] at hx ⊢
        by_cases hst : older_than_facts r (getTarget r id) ||
            older_than_targets r (getTarget r id)
        · rw [if_pos hst] at hx ⊢
          simp only at hx ⊢
          by_cases hle : (env.exec id r.factStamps).1 ≤ 0
          · rw [if_pos hle] at hx; simp at hx
          · rw [if_neg hle] at hx; simp at hx
        · rw [if_neg hst] at hx ⊢
          exact ih _ _ _ hx

/-- Status/trace relation: starting from a positive status, the walk ends
nonpositive exactly when some recorded execution status is nonpositive
(execution stops at the first failure). -/
theorem walkDeps_any_nonpos (env : Env) (tid : Nat) (l : List Nat) :
    ∀ (r : Resolver) (st : Int) (nu : Bool), 0 < st →
      ((walkDeps env tid l r st nu).2.2.2.2.any (fun s => decide (s ≤ 0)) = true
        ↔ (walkDeps env tid l r st nu).1 ≤ 0) := by
  induction l with
  | nil =>
      intro r st nu hpos
      simp [walkDeps]
      omega
  | cons id rest ih =>
      intro r st nu hpos
      unfold walkDeps
      by_cases hid : id = tid
      · rw [if_pos hid]; simp; omega
      · rw [if_neg hid]
        by_cases hst : older_than_facts r (getTarget r id) ||
            older_than_targets r (getTarget r id)
        · rw [if_pos hst]
          simp only
          by_cases hle : (env.exec id r.factStamps).1 ≤ 0
          · rw [if_pos hle]; simp [hle]
          · rw [if_neg hle]
            simp only [List.any_cons, Bool.or_eq_true, decide_eq_true_eq]
            rw [ih _ _ _ (by omega)]
            constructor
            · rintro (h | h)
              · omega
              · exact h
            · intro h; exact Or.inr h
        · rw [if_neg hst]
          exact ih _ _ _ hpos

/-! ### The claims -/

/-- Claim C3: `older_than_facts t` returns true whenever `t.update_facts`
is absent, regardless of any prior updates or history; when present, it
returns true iff some tracked fact's current stamp strictly exceeds the
cached value in `t.fact_stamps` at the same position. -/
theorem claim_C3 (r : Resolver) (t : Target) :
    (t.update_facts = none → older_than_facts r t = true) ∧
    (∀ fs, t.update_facts = some fs →
      (older_than_facts r t = true ↔
        ∃ i < fs.length,
          t.fact_stamps.getD i 0 < fact_stamp r (fs.getD i 0))) := by
  constructor
  · intro h; simp [older_than_facts, h]
  · intro fs h
    simp [older_than_facts, h, List.any_eq_true, List.mem_range]

/-- Witness for C3 at concrete inputs: a target without fact dependencies
is older than facts; one with a fact at current stamp 3 against cached 2
is stale by the iff. -/
theorem claim_C3_witness :
    older_than_facts { targets := [], nfact := 0, factStamps := [] }
        { name := "x", update_facts := none, fact_stamps := [],
          update_targets := [], stamp := 0 } = true ∧
    older_than_facts { targets := [], nfact := 1, factStamps := [3] }
        { name := "y", update_facts := some [0], fact_stamps := [2],
          update_targets := [], stamp := 0 } = true :=
  ⟨(claim_C3 _ _).1 rfl,
    ((claim_C3 _ _).2 [0] rfl).mpr ⟨0, by decide, by decide⟩⟩

/-- Claim C9: `update_target_by_id` rejects an index iff `id ≥ ntarget`;
the bounds check has no lower bound, so every negative id is not rejected
and proceeds to the record at that negative offset (out-of-bounds). -/
theorem claim_C9 (env : Env) (r : Resolver) (id : Int) :
    ((update_target_by_id env r id).isRejected = true ↔
      (r.targets.length : Int) ≤ id) ∧
    (id < 0 → update_target_by_id env r id = .oob id) := by
  constructor
  · unfold update_target_by_id
    by_cases h1 : id < (r.targets.length : Int)
    · rw [if_pos h1]
      by_cases h2 : 0 ≤ id
      · rw [if_pos h2]; simp [ByIdResult.isRejected]; omega
      · rw [if_neg h2]; simp [ByIdResult.isRejected]; omega
    · rw [if_neg h1]; simp [ByIdResult.isRejected]; omega
  · intro hneg
    unfold update_target_by_id
    rw [if_pos (by omega), if_neg (by omega)]

/-- Witness for C9 at id = -1 on a one-target registry. -/
theorem claim_C9_witness :
    ((update_target_by_id demoEnv rA (-1)).isRejected = true ↔
      ((rA.targets.length : Int) ≤ -1)) ∧
    ((-1 : Int) < 0 ∧ update_target_by_id demoEnv rA (-1) = .oob (-1)) :=
  ⟨(claim_C9 demoEnv rA (-1)).1,
    ⟨by decide, (claim_C9 demoEnv rA (-1)).2 (by decide)⟩⟩

/-- Claim C8: an update request failing name/index resolution causes no
state change and returns the recoverable FALSE: a by-name miss and an
out-of-range id both return without opening a transaction, executing any
procedure, or mutating any stamp. -/
theorem claim_C8 (env : Env) (r : Resolver) (nm : String) (id : Int)
    (hname : ∀ t ∈ r.targets, t.name ≠ nm)
    (hid : (r.targets.length : Int) ≤ id) :
    update_target_by_name env r nm = noRequest r 0 ∧
    update_target_by_id env r id = .rejected (noRequest r 0) := by
  constructor
  · unfold update_target_by_name
    have hf : r.targets.findIdx? (fun t => t.name = nm) = none := by
      rw [List.findIdx?_eq_none_iff]
      intro t ht
      simpa using hname t ht
    rw [hf]
  · unfold update_target_by_id
    rw [if_neg (by omega)]

/-- Witness for C8: the one-target registry, a missing name and the
one-past-the-end index. -/
theorem claim_C8_witness :
    ((∀ t ∈ rA.targets, t.name ≠ "missing") ∧
      ((rA.targets.length : Int) ≤ 1)) ∧
    (update_target_by_name demoEnv rA "missing" = noRequest rA 0 ∧
      update_target_by_id demoEnv rA 1 = .rejected (noRequest rA 0)) :=
  ⟨⟨by decide, by decide⟩,
    claim_C8 demoEnv rA "missing" 1 (by decide) (by decide)⟩

/-- Claim C7: `autoupdate_target` on a registry with no designated
auto-update target returns the neutral TRUE without opening a
transaction, invoking the fact store, or executing any procedure; with a
designated target it delegates to the by-name update on that target's
name. -/
theorem claim_C7 (env : Env) (ar : AutoResolver) :
    (ar.auto_update = none → autoupdate_target env ar = noRequest ar.base 1) ∧
    (∀ i, ar.auto_update = some i →
      autoupdate_target env ar =
        update_target_by_name env ar.base (getTarget ar.base i).name) := by
  constructor
  · intro h; simp [autoupdate_target, h]
  · intro i h
    simp [autoupdate_target, h, mrp_resolver_update_targetl]

/-- Witness for C7 on concrete registries with and without a designated
auto-update target. -/
theorem claim_C7_witness :
    autoupdate_target demoEnv { base := rA, auto_update := none } =
      noRequest rA 1 ∧
    autoupdate_target demoEnv { base := rA, auto_update := some 0 } =
      update_target_by_name demoEnv rA (getTarget rA 0).name :=
  ⟨(claim_C7 demoEnv _).1 rfl, (claim_C7 demoEnv _).2 0 rfl⟩

/-- The code's walk (with its in-loop self check) computes the spec-side
walk over the prefix strictly before the first self entry. -/
theorem walkDeps_eq_specWalk (env : Env) (tid : Nat) (l : List Nat) :
    ∀ (r : Resolver) (st : Int) (nu : Bool),
      walkDeps env tid l r st nu =
        specWalk env (l.takeWhile (fun id => id ≠ tid)) r st nu := by
  induction l with
  | nil => intro r st nu; rfl
  | cons id rest ih =>
      intro r st nu
      unfold walkDeps
      by_cases hid : id = tid
      · have htw : ((id :: rest).takeWhile (fun x => decide (x ≠ tid))) = [] := by
          simp [List.takeWhile_cons, hid]
        rw [if_pos hid, htw]
        rfl
      · have htw : ((id :: rest).takeWhile (fun x => decide (x ≠ tid))) =
            id :: rest.takeWhile (fun x => decide (x ≠ tid)) := by
          simp [List.takeWhile_cons, hid]
        rw [if_neg hid, htw]
        unfold specWalk
        simp only [ih]

/-- Claim C2: the pre-commit phase of `update_target` is exactly the
spec-described pass — `update_targets` entries are visited in order up to
(and excluding) the first entry equal to the subject; a visited dependency
is executed exactly when it is stale by `older_than_facts` or
`older_than_targets`; a nonpositive outcome stops the walk with that
status; a positive outcome refreshes the dependency's fact stamps and
continues; the subject's own procedure runs only if no execution failed
and `needs_update` holds (initialized from `older_than_facts` and set by
any stale dependency), refreshing its fact stamps on success. -/
theorem claim_C2 (env : Env) (r : Resolver) (tid : Nat) :
    updatePass env r tid = specPass env r tid := by
  unfold updatePass specPass
  simp only [walkDeps_eq_specWalk]

/-- A pass that executed nothing returns the initial status TRUE = 1. -/
theorem updatePass_empty_exec (env : Env) (r : Resolver) (tid : Nat)
    (h : (updatePass env r tid).executed = []) :
    (updatePass env r tid).status = 1 := by
  unfold updatePass at h ⊢
  simp only at h ⊢
  by_cases hb : (walkDeps env tid (getTarget r tid).update_targets r 1
        (older_than_facts r (getTarget r tid))).2.2.1 &&
      decide (0 < (walkDeps env tid (getTarget r tid).update_targets r 1
        (older_than_facts r (getTarget r tid))).1)
  · rw [if_pos hb] at h ⊢
    by_cases hpe : 0 < (env.exec tid (walkDeps env tid
        (getTarget r tid).update_targets r 1
        (older_than_facts r (getTarget r tid))).2.1.factStamps).1
    · rw [if_pos hpe] at h; simp at h
    · rw [if_neg hpe] at h; simp at h
  · rw [if_neg hb] at h ⊢
    have hweq := walkDeps_empty_exec env tid (getTarget r tid).update_targets
      r 1 (older_than_facts r (getTarget r tid)) h
    show (walkDeps env tid (getTarget r tid).update_targets r 1
      (older_than_facts r (getTarget r tid))).1 = 1
    rw [hweq]

/-- Counterexample to C5: the value returned when no procedure ran
(TRUE = 1) is the value returned when two procedures ran successfully
(each returning 1), so the two outcomes are not distinguishable by the
returned status. -/
theorem claim_C5_counterexample :
    (update_target demoEnv rB 0).executed = [] ∧
    (update_target demoEnv rB 0).committed = true ∧
    (update_target demoEnv rC 1).executed = [0, 1] ∧
    (update_target demoEnv rC 1).committed = true ∧
    (update_target demoEnv rC 1).statuses = [1, 1] ∧
    (update_target demoEnv rB 0).status =
      (update_target demoEnv rC 1).status := by decide

/-- Claim C5 (amended): failure is distinguishable from success — the
transaction commits exactly when the returned status is positive, and a
request that executed nothing returns the neutral TRUE = 1 — but a
successful run whose last procedure returned 1 yields the same value as
the neutral case, so "nothing ran" is not distinguishable from "ran
successfully" by the status alone. -/
theorem claim_C5_amended (env : Env) (r : Resolver) (tid : Nat) :
    ((update_target env r tid).committed = true ↔
      0 < (update_target env r tid).status) ∧
    ((update_target env r tid).executed = [] →
      (update_target env r tid).committed = true →
      (update_target env r tid).status = 1) := by
  unfold update_target
  by_cases ho : env.txOpen = false
  · rw [if_pos ho]
    refine ⟨⟨fun h => by simp at h, fun h => ?_⟩, fun h1 h2 => by simp at h2⟩
    exfalso
    simp only at h
    revert h
    split <;> omega
  · rw [if_neg ho]
    simp only
    set p := updatePass env r tid with hp
    by_cases hle : p.status ≤ 0
    · rw [if_pos hle]
      refine ⟨⟨fun h => by simp at h, fun h => ?_⟩, fun h1 h2 => by simp at h2⟩
      simp only at h
      omega
    · rw [if_neg hle]
      by_cases hc : env.commitOk
      · rw [if_pos hc]
        refine ⟨⟨fun _ => by simp only; omega, fun _ => rfl⟩, fun h1 h2 => ?_⟩
        simp only at h1 ⊢
        exact updatePass_empty_exec env r tid (by rw [← hp]; exact h1)
      · rw [if_neg hc]
        refine ⟨⟨fun h => by simp at h, fun h => ?_⟩, fun h1 h2 => by simp at h2⟩
        exfalso
        simp only at h
        revert h
        split <;> omega

/-- Witness for the amended C5 on the registry where nothing runs. -/
theorem claim_C5_witness :
    ((update_target demoEnv rB 0).committed = true ↔
      0 < (update_target demoEnv rB 0).status) ∧
    (update_target demoEnv rB 0).status = 1 :=
  ⟨(claim_C5_amended demoEnv rB 0).1,
    (claim_C5_amended demoEnv rB 0).2 (by decide) (by decide)⟩

/-- `getD` through `map` at an in-range index. -/
theorem getD_map (f : Nat → Nat) (l : List Nat) (j : Nat) (h : j < l.length) :
    (l.map f).getD j 0 = f (l.getD j 0) := by
  rw [List.getD_eq_getElem _ _ (by simpa using h), List.getD_eq_getElem _ _ h,
    List.getElem_map]

/-- The whole update request preserves the structural fields of every
target (in particular no `stamp` is ever modified). -/
theorem update_target_preserves (env : Env) (r : Resolver) (tid : Nat) :
    preserves r (update_target env r tid).resolver := by
  unfold update_target
  by_cases ho : env.txOpen = false
  · rw [if_pos ho]; exact preserves_refl r
  · rw [if_neg ho]
    simp only
    by_cases hle : (updatePass env r tid).status ≤ 0
    · rw [if_pos hle]
      exact preserves_trans (updatePass_preserves env r tid)
        (restore_target_stamps_preserves _ _ _)
    · rw [if_neg hle]
      by_cases hc : env.commitOk
      · rw [if_pos hc]; exact updatePass_preserves env r tid
      · rw [if_neg hc]
        exact preserves_trans (updatePass_preserves env r tid)
          (restore_target_stamps_preserves _ _ _)

/-- If the subject itself was executed and the pass ended positive, the
pass's final resolver is the walk's resolver (with the subject's script's
fact world) in which the subject's fact stamps were refreshed. -/
theorem updatePass_subject (env : Env) (r : Resolver) (tid : Nat)
    (hmem : tid ∈ (updatePass env r tid).executed)
    (hpos : 0 < (updatePass env r tid).status) :
    ∃ r2 : Resolver, preserves r r2 ∧
      (updatePass env r tid).resolver =
        setTarget r2 tid (update_target_stamps r2 (getTarget r2 tid)) ∧
      (updatePass env r tid).resolver.factStamps = r2.factStamps := by
  unfold updatePass at hmem hpos ⊢
  simp only at hmem hpos ⊢
  by_cases hb : (walkDeps env tid (getTarget r tid).update_targets r 1
        (older_than_facts r (getTarget r tid))).2.2.1 &&
      decide (0 < (walkDeps env tid (getTarget r tid).update_targets r 1
        (older_than_facts r (getTarget r tid))).1)
  · rw [if_pos hb] at hmem hpos ⊢
    by_cases hpe : 0 < (env.exec tid (walkDeps env tid
        (getTarget r tid).update_targets r 1
        (older_than_facts r (getTarget r tid))).2.1.factStamps).1
    · rw [if_pos hpe] at hmem hpos ⊢
      refine ⟨_, ?_, rfl, rfl⟩
      exact preserves_factWorld
        (walkDeps_preserves env tid _ r r 1 _ (preserves_refl r)) _
    · rw [if_neg hpe] at hpos
      exact absurd hpos hpe
  · rw [if_neg hb] at hmem
    exact absurd rfl (walkDeps_executed_ne env tid _ r 1 _ tid hmem)

/-- The walk trace's executed indices are the walk's executed list
(so `walkWorlds` records exactly the executions of `walkDeps`). -/
theorem walkWorlds_fst (env : Env) (tid : Nat) (l : List Nat) :
    ∀ (r : Resolver) (st : Int) (nu : Bool),
      (walkWorlds env tid l r).map Prod.fst =
        (walkDeps env tid l r st nu).2.2.2.1 := by
  induction l with
  | nil => intro r st nu; rfl
  | cons id rest ih =>
      intro r st nu
      unfold walkWorlds walkDeps
      by_cases hid : id = tid
      · rw [if_pos hid, if_pos hid]
        rfl
      · rw [if_neg hid, if_neg hid]
        by_cases hst : older_than_facts r (getTarget r id) ||
            older_than_targets r (getTarget r id)
        · rw [if_pos hst, if_pos hst]
          simp only
          by_cases hle : (env.exec id r.factStamps).1 ≤ 0
          · rw [if_pos hle, if_pos hle]
            rfl
          · rw [if_neg hle, if_neg hle]
            simp only [List.map_cons]
            rw [ih]
        · rw [if_neg hst, if_neg hst]
          exact ih r st nu

/-- A trace entry's index was visited: it is in the list and is not the
subject. -/
theorem walkWorlds_mem (env : Env) (tid : Nat) (l : List Nat) :
    ∀ (r : Resolver) (d : Nat) (w : List Nat),
      (d, w) ∈ walkWorlds env tid l r → d ∈ l ∧ d ≠ tid := by
  induction l with
  | nil => intro r d w hmem; simp [walkWorlds] at hmem
  | cons id rest ih =>
      intro r d w hmem
      unfold walkWorlds at hmem
      by_cases hid : id = tid
      · rw [if_pos hid] at hmem
        simp at hmem
      · rw [if_neg hid] at hmem
        by_cases hst : older_than_facts r (getTarget r id) ||
            older_than_targets r (getTarget r id)
        · rw [if_pos hst] at hmem
          simp only at hmem
          by_cases hle : (env.exec id r.factStamps).1 ≤ 0
          · rw [if_pos hle] at hmem
            simp at hmem
            exact ⟨by rw [hmem.1]; exact List.mem_cons_self id rest,
              by rw [hmem.1]; exact hid⟩
          · rw [if_neg hle] at hmem
            simp only [List.mem_cons] at hmem
            rcases hmem with heq | hmem'
            · have hd : d = id := congrArg Prod.fst heq
              exact ⟨by rw [hd]; exact List.mem_cons_self id rest,
                by rw [hd]; exact hid⟩
            · obtain ⟨h1, h2⟩ := ih _ d w hmem'
              exact ⟨List.mem_cons_of_mem id h1, h2⟩
        · rw [if_neg hst] at hmem
          obtain ⟨h1, h2⟩ := ih _ d w hmem
          exact ⟨List.mem_cons_of_mem id h1, h2⟩

/-- The walk never touches a target outside its visit list. -/
theorem walkDeps_untouched (env : Env) (tid : Nat) (l : List Nat) :
    ∀ (r : Resolver) (st : Int) (nu : Bool) (x : Nat), x ∉ l →
      getTarget (walkDeps env tid l r st nu).2.1 x = getTarget r x := by
  induction l with
  | nil => intro r st nu x _; rfl
  | cons id rest ih =>
      intro r st nu x hx
      have hxid : x ≠ id := fun h => hx (h ▸ List.mem_cons_self id rest)
      have hxrest : x ∉ rest := fun h => hx (List.mem_cons_of_mem id h)
      unfold walkDeps
      by_cases hid : id = tid
      · rw [if_pos hid]
      · rw [if_neg hid]
        by_cases hst : older_than_facts r (getTarget r id) ||
            older_than_targets r (getTarget r id)
        · rw [if_pos hst]
          simp only
          by_cases hle : (env.exec id r.factStamps).1 ≤ 0
          · rw [if_pos hle]
            rfl
          · rw [if_neg hle]
            simp only
            rw [ih _ _ _ x hxrest, getTarget_setTarget_ne _ hxid]
            rfl
        · rw [if_neg hst]
          exact ih r st nu x hxrest

/-- One executed-dependency step of the walk preserves the structural
fields. -/
theorem update_step_preserves (r : Resolver) (id : Nat) (w2 : List Nat) :
    preserves r (setTarget { r with factStamps := w2 } id
      (update_target_stamps { r with factStamps := w2 } (getTarget r id))) := by
  apply preserves_setTarget (preserves_factWorld (preserves_refl r) w2)
  · exact update_target_stamps_update_facts _ _
  · exact update_target_stamps_update_targets _ _
  · exact update_target_stamps_stamp _ _
  · exact update_target_stamps_length _ _
  · intro hn
    have hn' : (getTarget r id).update_facts = none := hn
    rw [update_target_stamps_none hn']
    rfl

/-- Buffer well-formedness transfers along structural preservation. -/
theorem sliceOk_of_preserves {r r' : Resolver} (hp : preserves r r')
    {id : Nat} (h : sliceOk r id) : sliceOk r' id := by
  obtain ⟨h1, h2, h3⟩ := h
  have huf : uflen (getTarget r' id) = uflen (getTarget r id) := by
    unfold uflen
    rw [(hp.2.2 id).1]
  refine ⟨by rw [hp.1]; exact h1, ?_, ?_⟩
  · rw [huf, hp.2.1]
    exact h2
  · rw [(hp.2.2 id).2.2.2.1, huf]
    exact h3

/-- `update_target_stamps` on a target with fact dependencies sets its
stamps to the facts' stamps in the given fact world. -/
theorem update_target_stamps_value (R : Resolver) (T : Target)
    (fs : List Nat) (hf : T.update_facts = some fs)
    (hlen : T.fact_stamps.length = fs.length) :
    (update_target_stamps R T).fact_stamps =
      fs.map (fun f => fact_stamp R f) := by
  unfold update_target_stamps
  rw [hf]
  simp only
  apply list_eq_of_getD
  · rw [foldl_set_length, hlen, List.length_map]
  · intro j hj
    rw [foldl_set_length, hlen] at hj
    rw [foldl_set_getD, if_pos ⟨hj, by rw [hlen]; exact hj⟩,
      getD_map _ _ _ hj]

/-- In a walk that ends positive over a duplicate-free list, every
executed dependency's stamps as left by the walk are the facts' stamps
immediately after that dependency's execution (its trace world). -/
theorem walkDeps_dep_refresh (env : Env) (tid : Nat) (l : List Nat) :
    ∀ (r : Resolver) (st : Int) (nu : Bool), l.Nodup →
      (∀ id ∈ l, sliceOk r id) →
      0 < (walkDeps env tid l r st nu).1 →
      ∀ (d : Nat) (w : List Nat) (fs : List Nat),
        (d, w) ∈ walkWorlds env tid l r →
        (getTarget r d).update_facts = some fs →
        (getTarget (walkDeps env tid l r st nu).2.1 d).fact_stamps =
          fs.map (fun f => w.getD f 0) := by
  induction l with
  | nil =>
      intro r st nu _ _ _ d w fs hmem _
      simp [walkWorlds] at hmem
  | cons id rest ih =>
      intro r st nu hnd hwf hpos d w fs hmem hfs
      unfold walkWorlds at hmem
      unfold walkDeps at hpos ⊢
      by_cases hid : id = tid
      · rw [if_pos hid] at hmem
        simp at hmem
      · rw [if_neg hid] at hmem hpos ⊢
        by_cases hst : older_than_facts r (getTarget r id) ||
            older_than_targets r (getTarget r id)
        · rw [if_pos hst] at hmem hpos ⊢
          simp only at hmem hpos ⊢
          by_cases hle : (env.exec id r.factStamps).1 ≤ 0
          · rw [if_pos hle] at hpos
            simp only at hpos
            omega
          · rw [if_neg hle] at hmem hpos ⊢
            simp only [List.mem_cons] at hmem
            rcases hmem with heq | hmem'
            · have hd : d = id := congrArg Prod.fst heq
              have hw : w = (env.exec id r.factStamps).2 :=
                congrArg Prod.snd heq
              rw [hd] at hfs ⊢
              rw [hw]
              have hidnotin : id ∉ rest := (List.nodup_cons.mp hnd).1
              rw [walkDeps_untouched env tid rest _ _ _ id hidnotin]
              have hidlt : id < ({ r with
                  factStamps := (env.exec id r.factStamps).2 } :
                    Resolver).targets.length :=
                (hwf id (List.mem_cons_self id rest)).1
              rw [getTarget_setTarget_self _ hidlt]
              have hlen : (getTarget r id).fact_stamps.length = fs.length := by
                have h1 := (hwf id (List.mem_cons_self id rest)).2.2
                have h2 : uflen (getTarget r id) = fs.length := by
                  unfold uflen
                  rw [hfs]
                  rfl
                rw [h1, h2]
              rw [update_target_stamps_value _ _ fs hfs hlen]
              rfl
            · have hstep := update_step_preserves r id (env.exec id r.factStamps).2
              have hfs' : (getTarget (setTarget { r with
                  factStamps := (env.exec id r.factStamps).2 } id
                  (update_target_stamps { r with
                    factStamps := (env.exec id r.factStamps).2 }
                    (getTarget r id))) d).update_facts = some fs := by
                rw [(hstep.2.2 d).1]
                exact hfs
              exact ih _ _ _ (List.nodup_cons.mp hnd).2
                (fun x hx => sliceOk_of_preserves hstep
                  (hwf x (List.mem_cons_of_mem id hx)))
                hpos d w fs hmem' hfs'
        · rw [if_neg hst] at hmem hpos ⊢
          exact ih r st nu (List.nodup_cons.mp hnd).2
            (fun x hx => hwf x (List.mem_cons_of_mem id hx))
            hpos d w fs hmem hfs

/-- Lifting the dependency-refresh property through the subject step of
the pass: the subject step never touches an executed dependency. -/
theorem updatePass_dep_refresh (env : Env) (r : Resolver) (tid : Nat)
    (hnd : (getTarget r tid).update_targets.Nodup)
    (hwf : ∀ id ∈ (getTarget r tid).update_targets, sliceOk r id)
    (hpos : 0 < (updatePass env r tid).status) :
    ∀ (d : Nat) (w : List Nat) (fs : List Nat),
      (d, w) ∈ walkWorlds env tid (getTarget r tid).update_targets r →
      (getTarget r d).update_facts = some fs →
      (getTarget (updatePass env r tid).resolver d).fact_stamps =
        fs.map (fun f => w.getD f 0) := by
  intro d w fs hmem hfs
  have hdne : d ≠ tid := (walkWorlds_mem env tid _ r d w hmem).2
  unfold updatePass at hpos ⊢
  simp only at hpos ⊢
  by_cases hb : (walkDeps env tid (getTarget r tid).update_targets r 1
        (older_than_facts r (getTarget r tid))).2.2.1 &&
      decide (0 < (walkDeps env tid (getTarget r tid).update_targets r 1
        (older_than_facts r (getTarget r tid))).1)
  · rw [if_pos hb] at hpos ⊢
    have hb' := hb
    rw [Bool.and_eq_true] at hb'
    have hwpos : 0 < (walkDeps env tid (getTarget r tid).update_targets r 1
        (older_than_facts r (getTarget r tid))).1 :=
      of_decide_eq_true hb'.2
    by_cases hpe : 0 < (env.exec tid (walkDeps env tid
        (getTarget r tid).update_targets r 1
        (older_than_facts r (getTarget r tid))).2.1.factStamps).1
    · rw [if_pos hpe]
      simp only
      rw [getTarget_setTarget_ne _ hdne]
      exact walkDeps_dep_refresh env tid _ r 1 _ hnd hwf hwpos d w fs hmem hfs
    · rw [if_neg hpe] at hpos
      simp only at hpos
      omega
  · rw [if_neg hb] at hpos ⊢
    exact walkDeps_dep_refresh env tid _ r 1 _ hnd hwf hpos d w fs hmem hfs

/-- A request returning a positive status took the commit branch: its
resolver, status and executed list are the pass's. -/
theorem update_target_success (env : Env) (r : Resolver) (tid : Nat)
    (hpos : 0 < (update_target env r tid).status) :
    (update_target env r tid).resolver = (updatePass env r tid).resolver ∧
    (update_target env r tid).status = (updatePass env r tid).status ∧
    (update_target env r tid).executed = (updatePass env r tid).executed := by
  unfold update_target at hpos ⊢
  by_cases ho : env.txOpen = false
  · rw [if_pos ho] at hpos
    simp only at hpos
    exfalso
    revert hpos
    split <;> omega
  · rw [if_neg ho] at hpos ⊢
    simp only at hpos ⊢
    by_cases hle : (updatePass env r tid).status ≤ 0
    · rw [if_pos hle] at hpos
      simp only at hpos
      omega
    · rw [if_neg hle] at hpos ⊢
      by_cases hc : env.commitOk
      · rw [if_pos hc]
        exact ⟨rfl, rfl, rfl⟩
      · rw [if_neg hc] at hpos
        simp only at hpos
        exfalso
        revert hpos
        split <;> omega

/-- Counterexample to C4: a fully successful pass on `rE` under `envS`
(committed, both executed procedures returned 2) leaves the subject's and
the executed dependency's own stamps exactly where they were — no code in
`update_target` bumps `stamp`, so neither is strictly increased — and the
executed dependency's `fact_stamps` do not reflect the facts' current
stamps as observed at the moment of overall success: the dependency was
refreshed when it ran ([3]), and the subject's later execution advanced
fact 0 again (final stamp 4). -/
theorem claim_C4_counterexample :
    (update_target envS rE 1).committed = true ∧
    (update_target envS rE 1).executed = [0, 1] ∧
    (update_target envS rE 1).statuses = [2, 2] ∧
    ¬ ((getTarget rE 1).stamp <
        (getTarget (update_target envS rE 1).resolver 1).stamp) ∧
    ¬ ((getTarget rE 0).stamp <
        (getTarget (update_target envS rE 1).resolver 0).stamp) ∧
    (getTarget (update_target envS rE 1).resolver 0).fact_stamps ≠
      [0].map (fun f => fact_stamp (update_target envS rE 1).resolver f) := by
  decide

/-- Claim C4 (amended): an update request never modifies any target's own
stamp (`update_target` has no code bumping `stamp`), so no `own_stamp` is
strictly increased; `fact_stamps` are refreshed per executed target at
the moment its own procedure succeeded: on a fully successful pass the
subject (having fact dependencies, executed last) holds the facts' stamps
as of the moment of overall success, and every executed dependency holds
the facts' stamps as observed immediately after that dependency's own
execution (its entry in the walk's trace), not the overall moment of
success. -/
theorem claim_C4_amended (env : Env) (r : Resolver) (tid : Nat) :
    (∀ id, (getTarget (update_target env r tid).resolver id).stamp =
      (getTarget r id).stamp) ∧
    (∀ fs, 0 < (update_target env r tid).status →
      tid ∈ (update_target env r tid).executed →
      (getTarget r tid).update_facts = some fs →
      (getTarget r tid).fact_stamps.length = fs.length →
      (getTarget (update_target env r tid).resolver tid).fact_stamps =
        fs.map (fun fid =>
          fact_stamp (update_target env r tid).resolver fid)) ∧
    ((getTarget r tid).update_targets.Nodup →
      (∀ id ∈ (getTarget r tid).update_targets, sliceOk r id) →
      0 < (update_target env r tid).status →
      ∀ (d : Nat) (w fs : List Nat),
        (d, w) ∈ walkWorlds env tid (getTarget r tid).update_targets r →
        (getTarget r d).update_facts = some fs →
        (getTarget (update_target env r tid).resolver d).fact_stamps =
          fs.map (fun f => w.getD f 0)) := by
  refine ⟨fun id => ((update_target_preserves env r tid).2.2 id).2.2.1,
    ?_, ?_⟩
  · intro fs hpos hmem hfs hlen
    unfold update_target at hpos hmem ⊢
    by_cases ho : env.txOpen = false
    · rw [if_pos ho] at hpos
      simp only at hpos
      revert hpos
      split <;> omega
    · rw [if_neg ho] at hpos hmem ⊢
      simp only at hpos hmem ⊢
      by_cases hle : (updatePass env r tid).status ≤ 0
      · rw [if_pos hle] at hpos
        simp only at hpos
        omega
      · rw [if_neg hle] at hpos hmem ⊢
        by_cases hc : env.commitOk
        · rw [if_pos hc] at hpos hmem ⊢
          obtain ⟨r2, hpres, hres, hfw⟩ :=
            updatePass_subject env r tid hmem (by omega)
          have htl : tid < r.targets.length := by
            by_contra hcon
            rw [getTarget_oob (by omega)] at hfs
            cases hfs
          have htl2 : tid < r2.targets.length := by
            rw [hpres.1]; exact htl
          have huf2 : (getTarget r2 tid).update_facts = some fs := by
            rw [(hpres.2.2 tid).1, hfs]
          have hlen2 : (getTarget r2 tid).fact_stamps.length = fs.length := by
            rw [(hpres.2.2 tid).2.2.2.1, hlen]
          rw [hres, getTarget_setTarget_self _ htl2]
          unfold update_target_stamps
          rw [huf2]
          simp only
          apply list_eq_of_getD
          · rw [foldl_set_length, hlen2, List.length_map]
          · intro j hj
            rw [foldl_set_length] at hj
            rw [hlen2] at hj
            rw [foldl_set_getD, if_pos ⟨hj, by rw [hlen2]; exact hj⟩,
              getD_map _ _ _ hj]
            rfl
        · rw [if_neg hc] at hpos
          simp only at hpos
          revert hpos
          split <;> omega
  · intro hnd hwf hpos d w fs hmem hfs
    obtain ⟨hres, hst, -⟩ := update_target_success env r tid hpos
    rw [hres]
    exact updatePass_dep_refresh env r tid hnd hwf
      (by rw [← hst]; exact hpos) d w fs hmem hfs

/-- Witness for the amended C4 on `rE` under `envS`: no stamp changed,
the subject's final stamps equal the final fact world, and the executed
dependency's final stamps equal its trace world [3]. -/
theorem claim_C4_witness :
    (getTarget (update_target envS rE 1).resolver 1).stamp =
      (getTarget rE 1).stamp ∧
    ((0 : Int) < (update_target envS rE 1).status ∧
      1 ∈ (update_target envS rE 1).executed ∧
      (getTarget rE 1).update_facts = some [0] ∧
      (getTarget rE 1).fact_stamps.length = [0].length ∧
      (getTarget (update_target envS rE 1).resolver 1).fact_stamps =
        [0].map (fun fid =>
          fact_stamp (update_target envS rE 1).resolver fid)) ∧
    ((0, [3]) ∈ walkWorlds envS 1 (getTarget rE 1).update_targets rE ∧
      (getTarget (update_target envS rE 1).resolver 0).fact_stamps =
        [0].map (fun f => ([3] : List Nat).getD f 0)) :=
  ⟨(claim_C4_amended envS rE 1).1 1,
    ⟨by decide, by decide, by decide, by decide,
      (claim_C4_amended envS rE 1).2.1 [0] (by decide) (by decide)
        (by decide) (by decide)⟩,
    ⟨by decide,
      (claim_C4_amended envS rE 1).2.2 (by decide) (by decide) (by decide)
        0 [3] [0] (by decide) (by decide)⟩⟩

/-- One successful iteration of the `create_targets` loop: with the
script binding succeeding and every `$`-dependency registering, the loop
appends the materialized target and updates the remembered auto-update
index exactly when the designated name equals this target's name. -/
theorem create_targets_loop_cons_ok (mkScript : String → String → Option Script)
    (mkFact : String → Bool) (autoName : Option String) (pt : ParsedTarget)
    (rest : List ParsedTarget) (acc : List BuiltTarget) (auto : Option Nat)
    (hs : ∀ src, pt.script_source = some src → (mkScript pt.script_type src).isSome)
    (hf : ∀ d ∈ pt.depends, d.startsWith "$" → mkFact d = true) :
    ∃ sc, create_targets_loop mkScript mkFact autoName (pt :: rest) acc auto =
      create_targets_loop mkScript mkFact autoName rest
        (acc ++ [{ name := pt.name, depends := pt.depends, script := sc }])
        (next_auto autoName pt.name acc.length auto) := by
  have hfind : pt.depends.find? (fun d => d.startsWith "$" && !(mkFact d)) =
      none := by
    apply List.find?_eq_none.mpr
    intro d hd
    simp only [Bool.and_eq_true, Bool.not_eq_true', not_and]
    intro h1
    rw [hf d hd h1]
    simp
  have hbs : ∃ sc, bind_script mkScript pt = some sc := by
    unfold bind_script
    cases hsrc : pt.script_source with
    | none => exact ⟨none, rfl⟩
    | some src =>
        obtain ⟨s, hsome⟩ := Option.isSome_iff_exists.mp (hs src hsrc)
        exact ⟨some s, by simp [hsome]⟩
  obtain ⟨sc, hsc⟩ := hbs
  refine ⟨sc, ?_⟩
  conv_lhs => unfold create_targets_loop
  rw [hsc, hfind]

/-- If the designated name (if any) matches none of the remaining parsed
targets, the loop succeeds, appends the materialized targets and leaves
the remembered auto-update index unchanged. -/
theorem create_targets_loop_unchanged (mkScript : String → String → Option Script)
    (mkFact : String → Bool) (autoName : Option String) :
    ∀ (l : List ParsedTarget),
      (∀ pt ∈ l, ∀ src, pt.script_source = some src →
        (mkScript pt.script_type src).isSome) →
      (∀ pt ∈ l, ∀ d ∈ pt.depends, d.startsWith "$" → mkFact d = true) →
      (∀ pt ∈ l, autoName ≠ some pt.name) →
      ∀ (acc : List BuiltTarget) (auto : Option Nat),
        ∃ ts, create_targets_loop mkScript mkFact autoName l acc auto =
          .ok (acc ++ ts, auto) := by
  intro l
  induction l with
  | nil =>
      intro _ _ _ acc auto
      exact ⟨[], by simp [create_targets_loop]⟩
  | cons pt rest ih =>
      intro hscript hfact hnm acc auto
      obtain ⟨sc, hstep⟩ := create_targets_loop_cons_ok mkScript mkFact
        autoName pt rest acc auto
        (hscript pt (List.mem_cons_self pt rest))
        (hfact pt (List.mem_cons_self pt rest))
      rw [hstep]
      have hauto : next_auto autoName pt.name acc.length auto = auto := by
        unfold next_auto
        cases han : autoName with
        | none => rfl
        | some an =>
            have := hnm pt (List.mem_cons_self pt rest)
            rw [han] at this
            simp only
            rw [if_neg (by intro hh; exact this (by rw [hh]))]
      rw [hauto]
      obtain ⟨ts, hrest⟩ := ih
        (fun q hq => hscript q (List.mem_cons_of_mem pt hq))
        (fun q hq => hfact q (List.mem_cons_of_mem pt hq))
        (fun q hq => hnm q (List.mem_cons_of_mem pt hq))
        (acc ++ [{ name := pt.name, depends := pt.depends, script := sc }]) auto
      refine ⟨{ name := pt.name, depends := pt.depends, script := sc } :: ts, ?_⟩
      rw [hrest]
      simp

/-- If the designated name matches some remaining parsed target, the loop
succeeds and remembers an index whose built target carries that name. -/
theorem create_targets_loop_found (mkScript : String → String → Option Script)
    (mkFact : String → Bool) (an : String) :
    ∀ (l : List ParsedTarget),
      (∀ pt ∈ l, ∀ src, pt.script_source = some src →
        (mkScript pt.script_type src).isSome) →
      (∀ pt ∈ l, ∀ d ∈ pt.depends, d.startsWith "$" → mkFact d = true) →
      (∃ pt ∈ l, pt.name = an) →
      ∀ (acc : List BuiltTarget) (auto : Option Nat),
        ∃ full i, create_targets_loop mkScript mkFact (some an) l acc auto =
            .ok (full, some i) ∧ i < full.length ∧
            (full.getD i default).name = an := by
  intro l
  induction l with
  | nil =>
      intro _ _ hmatch _ _
      obtain ⟨pt, hpt, _⟩ := hmatch
      cases hpt
  | cons pt rest ih =>
      intro hscript hfact hmatch acc auto
      obtain ⟨sc, hstep⟩ := create_targets_loop_cons_ok mkScript mkFact
        (some an) pt rest acc auto
        (hscript pt (List.mem_cons_self pt rest))
        (hfact pt (List.mem_cons_self pt rest))
      rw [hstep]
      by_cases hrest : ∃ q ∈ rest, q.name = an
      · exact ih (fun q hq => hscript q (List.mem_cons_of_mem pt hq))
          (fun q hq => hfact q (List.mem_cons_of_mem pt hq)) hrest _ _
      · have hhead : pt.name = an := by
          obtain ⟨q, hq, hqn⟩ := hmatch
          rcases List.mem_cons.mp hq with hq1 | hq2
          · rw [← hq1]; exact hqn
          · exact absurd ⟨q, hq2, hqn⟩ hrest
        have hauto : next_auto (some an) pt.name acc.length auto =
            some acc.length := by
          unfold next_auto
          simp only
          rw [if_pos hhead.symm]
        rw [hauto]
        obtain ⟨ts, hrest'⟩ := create_targets_loop_unchanged mkScript mkFact
          (some an) rest
          (fun q hq => hscript q (List.mem_cons_of_mem pt hq))
          (fun q hq => hfact q (List.mem_cons_of_mem pt hq))
          (fun q hq hcon => hrest ⟨q, hq, by injection hcon with hh; exact hh.symm⟩)
          (acc ++ [{ name := pt.name, depends := pt.depends, script := sc }])
          (some acc.length)
        refine ⟨_, acc.length, hrest', ?_, ?_⟩
        · simp
        · rw [List.append_assoc, List.getD_append_right _ _ _ _ (le_refl _)]
          simp [hhead]

/-- Claim C6: in `create_targets` (with every script binding and fact
registration succeeding), a designated auto-update name matching no
created target's name fails the whole build with the
unknown-auto-update error signalling `ENOENT`; no designation leaves the
auto-update reference unset and is not an error; a matching name resolves
to a created target bearing that name. -/
theorem claim_C6 (mkScript : String → String → Option Script)
    (mkFact : String → Bool) (p : Parser)
    (hscript : ∀ pt ∈ p.targets, ∀ src, pt.script_source = some src →
      (mkScript pt.script_type src).isSome)
    (hfact : ∀ pt ∈ p.targets, ∀ d ∈ pt.depends, d.startsWith "$" →
      mkFact d = true) :
    (∀ an, p.auto_update = some an →
      ((∀ pt ∈ p.targets, pt.name ≠ an) →
        create_targets mkScript mkFact p = .error (.unknownAutoUpdate an) ∧
        (BuildError.unknownAutoUpdate an).errno = ENOENT) ∧
      ((∃ pt ∈ p.targets, pt.name = an) →
        ∃ ts i, create_targets mkScript mkFact p = .ok (ts, some i) ∧
          i < ts.length ∧ (ts.getD i default).name = an)) ∧
    (p.auto_update = none →
      ∃ ts, create_targets mkScript mkFact p = .ok (ts, none)) := by
  refine ⟨fun an han => ⟨fun hnone => ?_, fun hmatch => ?_⟩, fun hnone => ?_⟩
  · obtain ⟨ts, hloop⟩ := create_targets_loop_unchanged mkScript mkFact
      p.auto_update p.targets hscript hfact
      (fun pt hpt => by
        rw [han]
        intro hcon
        injection hcon with hh
        exact hnone pt hpt hh.symm)
      [] none
    constructor
    · unfold create_targets
      rw [hloop, han]
    · rfl
  · obtain ⟨full, i, hloop, hlt, hgn⟩ := create_targets_loop_found mkScript
      mkFact an p.targets hscript hfact hmatch [] none
    refine ⟨full, i, ?_, hlt, hgn⟩
    unfold create_targets
    rw [han, hloop]
  · obtain ⟨ts, hloop⟩ := create_targets_loop_unchanged mkScript mkFact
      p.auto_update p.targets hscript hfact
      (fun pt hpt => by rw [hnone]; intro hcon; cases hcon)
      [] none
    refine ⟨ts, ?_⟩
    unfold create_targets
    rw [hloop, hnone]
    rfl

/-- Witness for C6: building `pX` fails with the unknown-auto-update
error, which signals `ENOENT`. -/
theorem claim_C6_witness :
    create_targets (fun _ _ => none) (fun _ => true) pX =
      .error (.unknownAutoUpdate "Z") ∧
    (BuildError.unknownAutoUpdate "Z").errno = ENOENT :=
  ((claim_C6 (fun _ _ => none) (fun _ => true) pX
      (by simp [pX]) (by simp [pX])).1 "Z" rfl).1 (by decide)

/-! ### The checkpoint buffer: save writes each target's stamps into its
own slice, restore copies them back. -/

theorem slot_lt {a nt nf i : Nat} (ha : a < nt) (hi : i < nf) :
    a * nf + i < nt * nf := by
  calc a * nf + i < a * nf + nf := by omega
    _ = (a + 1) * nf := by ring
    _ ≤ nt * nf := Nat.mul_le_mul_right nf (by omega)

theorem slot_ne {a b nf i j : Nat} (hab : a ≠ b) (hi : i < nf) (hj : j < nf) :
    a * nf + i ≠ b * nf + j := by
  rcases Nat.lt_or_ge a b with hl | hg
  · have h1 : a * nf + i < (a + 1) * nf := by
      calc a * nf + i < a * nf + nf := by omega
        _ = (a + 1) * nf := by ring
    have h2 : (a + 1) * nf ≤ b * nf := Nat.mul_le_mul_right nf hl
    omega
  · have hab' : b < a := by omega
    have h1 : b * nf + j < (b + 1) * nf := by
      calc b * nf + j < b * nf + nf := by omega
        _ = (b + 1) * nf := by ring
    have h2 : (b + 1) * nf ≤ a * nf := Nat.mul_le_mul_right nf hab'
    omega

theorem save_fact_stamps_length (nf tid : Nat) (t : Target)
    (buf : List Nat) :
    (save_fact_stamps nf tid t buf).length = buf.length := by
  unfold save_fact_stamps
  cases h : t.update_facts with
  | none => rfl
  | some fs => exact foldl_set_po_length _ _ _ _

/-- Element description of a single target's save. -/
theorem save_fact_stamps_getD (nf tid : Nat) (t : Target) (buf : List Nat)
    (j : Nat) :
    (save_fact_stamps nf tid t buf).getD j 0 =
      if tid * nf ≤ j ∧ j < tid * nf + uflen t ∧ j < buf.length
      then t.fact_stamps.getD (j - tid * nf) 0
      else buf.getD j 0 := by
  unfold save_fact_stamps uflen
  cases h : t.update_facts with
  | none =>
      simp only [Option.getD_none, List.length_nil]
      rw [if_neg (by omega)]
  | some fs =>
      simp only [Option.getD_some]
      exact foldl_set_po_getD _ _ _ _ _

/-- The fold of saves over a list keeps the buffer length. -/
theorem save_fold_length (r : Resolver) (L : List Nat) :
    ∀ buf : List Nat,
      ((L.foldl (fun b x => save_fact_stamps r.nfact x (getTarget r x) b)
        buf)).length = buf.length := by
  induction L with
  | nil => intro buf; rfl
  | cons a L' ih =>
      intro buf
      simp only [List.foldl_cons]
      rw [ih, save_fact_stamps_length]

/-- Once a target's slice holds its stamps, later saves (of itself or of
other in-range targets) keep it intact. -/
theorem save_fold_keep (r : Resolver) (a : Nat) (ha : sliceOk r a) :
    ∀ (L' : List Nat), (∀ id ∈ L', sliceOk r id) →
      ∀ buf : List Nat,
        (∀ i < uflen (getTarget r a),
          buf.getD (a * r.nfact + i) 0 =
            (getTarget r a).fact_stamps.getD i 0) →
        ∀ i < uflen (getTarget r a),
          ((L'.foldl (fun b x => save_fact_stamps r.nfact x (getTarget r x) b)
            buf)).getD (a * r.nfact + i) 0 =
            (getTarget r a).fact_stamps.getD i 0 := by
  intro L'
  induction L' with
  | nil => intro _ buf hbuf i hi; exact hbuf i hi
  | cons b L'' ih =>
      intro hwf buf hbuf i hi
      simp only [List.foldl_cons]
      refine ih (fun id hid => hwf id (List.mem_cons_of_mem b hid)) _ ?_ i hi
      intro i' hi'
      rw [save_fact_stamps_getD]
      by_cases hcond : b * r.nfact ≤ a * r.nfact + i' ∧
          a * r.nfact + i' < b * r.nfact + uflen (getTarget r b) ∧
          a * r.nfact + i' < buf.length
      · rw [if_pos hcond]
        by_cases hab : a = b
        · subst hab
          have : a * r.nfact + i' - a * r.nfact = i' := by omega
          rw [this]
        · exfalso
          have hib : a * r.nfact + i' - b * r.nfact <
              uflen (getTarget r b) := by omega
          exact slot_ne hab (lt_of_lt_of_le hi' ha.2.1)
            (lt_of_lt_of_le hib (hwf b (List.mem_cons_self b L'')).2.1)
            (by omega)
      · rw [if_neg hcond]
        exact hbuf i' hi'

/-- After saving every listed target, each listed target's slice holds
its stamps. -/
theorem save_fold_getD (r : Resolver) :
    ∀ (L : List Nat), (∀ id ∈ L, sliceOk r id) →
      ∀ buf : List Nat, buf.length = r.targets.length * r.nfact →
        ∀ id ∈ L, ∀ i < uflen (getTarget r id),
          ((L.foldl (fun b x => save_fact_stamps r.nfact x (getTarget r x) b)
            buf)).getD (id * r.nfact + i) 0 =
            (getTarget r id).fact_stamps.getD i 0 := by
  intro L
  induction L with
  | nil => intro _ _ _ id hid; cases hid
  | cons a L' ih =>
      intro hwf buf hbuf id hid i hi
      simp only [List.foldl_cons]
      by_cases hmem : id ∈ L'
      · exact ih (fun x hx => hwf x (List.mem_cons_of_mem a hx))
          (save_fact_stamps r.nfact a (getTarget r a) buf)
          (by rw [save_fact_stamps_length]; exact hbuf) id hmem i hi
      · have hida : id = a := by
          rcases List.mem_cons.mp hid with h | h
          · exact h
          · exact absurd h hmem
        subst hida
        refine save_fold_keep r id (hwf id (List.mem_cons_self id L')) L'
          (fun x hx => hwf x (List.mem_cons_of_mem id hx)) _ ?_ i hi
        intro i' hi'
        rw [save_fact_stamps_getD]
        have hlt : id * r.nfact + i' < buf.length := by
          rw [hbuf]
          exact slot_lt (hwf id (List.mem_cons_self id L')).1
            (lt_of_lt_of_le hi' (hwf id (List.mem_cons_self id L')).2.1)
        rw [if_pos ⟨by omega, by omega, hlt⟩]
        have hsub : id * r.nfact + i' - id * r.nfact = i' := by omega
        rw [hsub]

theorem restore_one_preserves {r rc : Resolver} (hp : preserves r rc)
    (a : Nat) (buf : List Nat) :
    preserves r
      (setTarget rc a (restore_fact_stamps rc.nfact a (getTarget rc a) buf)) := by
  apply preserves_setTarget hp
  · exact restore_fact_stamps_update_facts _ _ _ _
  · exact restore_fact_stamps_update_targets _ _ _ _
  · exact restore_fact_stamps_stamp _ _ _ _
  · exact restore_fact_stamps_length _ _ _ _
  · intro hn; rw [restore_fact_stamps_none hn]

/-- Restoring a list of targets not containing `a` leaves target `a`
untouched. -/
theorem fold_restore_keep (buf : List Nat) :
    ∀ (L' : List Nat) (rc : Resolver) (a : Nat), a ∉ L' →
      getTarget (L'.foldl (fun r' x =>
        setTarget r' x (restore_fact_stamps r'.nfact x (getTarget r' x) buf))
        rc) a = getTarget rc a := by
  intro L'
  induction L' with
  | nil => intro rc a _; rfl
  | cons b L'' ih =>
      intro rc a ha
      simp only [List.foldl_cons]
      rw [ih _ a (fun h => ha (List.mem_cons_of_mem b h))]
      exact getTarget_setTarget_ne _ (fun h => ha (h ▸ List.mem_cons_self b L''))

/-- Restoring one well-formed target from a buffer whose slice holds its
original stamps recovers exactly the original stamps. -/
theorem restore_fact_stamps_value (r rc : Resolver) (a : Nat)
    (buf : List Nat) (hpres : preserves r rc) (ha : sliceOk r a)
    (hbufc : ∀ i < uflen (getTarget r a),
      buf.getD (a * r.nfact + i) 0 = (getTarget r a).fact_stamps.getD i 0) :
    (restore_fact_stamps rc.nfact a (getTarget rc a) buf).fact_stamps =
      (getTarget r a).fact_stamps := by
  have hufe : (getTarget rc a).update_facts =
      (getTarget r a).update_facts := (hpres.2.2 a).1
  have hnf : rc.nfact = r.nfact := hpres.2.1
  cases h : (getTarget r a).update_facts with
  | none =>
      rw [restore_fact_stamps_none (hufe.trans h)]
      exact (hpres.2.2 a).2.2.2.2 h
  | some fs =>
      have hrlen : (getTarget r a).fact_stamps.length = fs.length := by
        have := ha.2.2
        rw [uflen, h] at this
        exact this
      have hlen0 : (getTarget rc a).fact_stamps.length = fs.length := by
        rw [(hpres.2.2 a).2.2.2.1]
        exact hrlen
      unfold restore_fact_stamps
      rw [hufe, h]
      simp only
      apply list_eq_of_getD
      · rw [foldl_set_length, hlen0, hrlen]
      · intro j hj
        rw [foldl_set_length, hlen0] at hj
        rw [foldl_set_getD, if_pos ⟨hj, by rw [hlen0]; exact hj⟩, hnf]
        exact hbufc j (by rw [uflen, h]; exact hj)

/-- Restoring every listed target from a buffer holding their original
stamps recovers every listed target's original stamps. -/
theorem restore_fold_value (r : Resolver) (buf : List Nat) :
    ∀ (L : List Nat), (∀ id ∈ L, sliceOk r id) →
      (∀ id ∈ L, ∀ i < uflen (getTarget r id),
        buf.getD (id * r.nfact + i) 0 =
          (getTarget r id).fact_stamps.getD i 0) →
      ∀ (rc : Resolver), preserves r rc →
        ∀ id ∈ L,
          (getTarget (L.foldl (fun r' x =>
            setTarget r' x
              (restore_fact_stamps r'.nfact x (getTarget r' x) buf)) rc)
            id).fact_stamps = (getTarget r id).fact_stamps := by
  intro L
  induction L with
  | nil => intro _ _ _ _ id hid; cases hid
  | cons a L' ih =>
      intro hwf hbufc rc hpres id hid
      simp only [List.foldl_cons]
      by_cases hmem : id ∈ L'
      · exact ih (fun x hx => hwf x (List.mem_cons_of_mem a hx))
          (fun x hx => hbufc x (List.mem_cons_of_mem a hx)) _
          (restore_one_preserves hpres a buf) id hmem
      · have hida : id = a := by
          rcases List.mem_cons.mp hid with h | h
          · exact h
          · exact absurd h hmem
        subst hida
        rw [fold_restore_keep buf L' _ id hmem]
        have hidlt : id < rc.targets.length := by
          rw [hpres.1]
          exact (hwf id (List.mem_cons_self id L')).1
        rw [getTarget_setTarget_self _ hidlt]
        exact restore_fact_stamps_value r rc id buf hpres
          (hwf id (List.mem_cons_self id L'))
          (hbufc id (List.mem_cons_self id L'))

/-- The rollback path: restoring after the pass, from the checkpoint
saved before it, recovers every dependency-closure target's stamps. -/
theorem restore_after_update (env : Env) (r : Resolver) (tid : Nat)
    (hwf : ∀ id ∈ (getTarget r tid).update_targets, sliceOk r id) :
    ∀ id ∈ (getTarget r tid).update_targets,
      (getTarget (restore_target_stamps (updatePass env r tid).resolver tid
        (save_target_stamps r tid
          (List.replicate (r.targets.length * r.nfact) 0))) id).fact_stamps =
      (getTarget r id).fact_stamps := by
  intro id hid
  have hpres := updatePass_preserves env r tid
  unfold restore_target_stamps
  rw [(hpres.2.2 tid).2.1]
  unfold save_target_stamps
  exact restore_fold_value r _ _ hwf
    (fun x hx i hi => save_fold_getD r _ hwf _ (by simp) x hx i hi)
    _ hpres id hid

/-- Claim C1: whenever an update pass fails (a procedure execution
returned ≤ 0, the transaction could not be opened, or the final commit
failed — all and only the cases where the returned status is ≤ 0), every
`fact_stamps` entry of every target listed in the subject's
`update_targets` closure equals its value from immediately before the
pass, even though dependency procedures may have run and
`update_target_stamps` overwritten entries during the pass. -/
theorem claim_C1 (env : Env) (r : Resolver) (tid : Nat)
    (hwf : ∀ id ∈ (getTarget r tid).update_targets, sliceOk r id)
    (hfail : (update_target env r tid).status ≤ 0) :
    ∀ id ∈ (getTarget r tid).update_targets,
      (getTarget (update_target env r tid).resolver id).fact_stamps =
        (getTarget r id).fact_stamps := by
  intro id hid
  unfold update_target at hfail ⊢
  by_cases ho : env.txOpen = false
  · rw [if_pos ho]
  · rw [if_neg ho] at hfail ⊢
    simp only at hfail ⊢
    by_cases hle : (updatePass env r tid).status ≤ 0
    · rw [if_pos hle]
      exact restore_after_update env r tid hwf id hid
    · rw [if_neg hle] at hfail ⊢
      by_cases hc : env.commitOk
      · rw [if_pos hc] at hfail
        simp only at hfail
        omega
      · rw [if_neg hc]
        exact restore_after_update env r tid hwf id hid

/-- Witness for C1: on `rE` under `envBump` the dependency executed and
had its stamps refreshed, the subject then failed, and after rollback the
dependency's stamps equal their pre-pass value. -/
theorem claim_C1_witness :
    (update_target envBump rE 1).status ≤ 0 ∧
    (getTarget (update_target envBump rE 1).resolver 0).fact_stamps =
      (getTarget rE 0).fact_stamps :=
  ⟨by decide, claim_C1 envBump rE 1 (by decide) (by decide) 0 (by decide)⟩

/-- The recorded execution statuses of an update request: empty when the
transaction did not open, else the pass's trace. -/
theorem update_target_statuses (env : Env) (r : Resolver) (tid : Nat) :
    (update_target env r tid).statuses =
      if env.txOpen = false then [] else (updatePass env r tid).statuses := by
  unfold update_target
  by_cases ho : env.txOpen = false
  · rw [if_pos ho, if_pos ho]
  · rw [if_neg ho, if_neg ho]
    simp only
    by_cases hle : (updatePass env r tid).status ≤ 0
    · rw [if_pos hle]
    · rw [if_neg hle]
      by_cases hc : env.commitOk
      · rw [if_pos hc]
      · rw [if_neg hc]

/-- `rollback_transaction` is called exactly on an open transaction whose
pass ended nonpositive. -/
theorem update_target_rolledBack (env : Env) (r : Resolver) (tid : Nat) :
    (update_target env r tid).rolledBack =
      (env.txOpen && decide ((updatePass env r tid).status ≤ 0)) := by
  unfold update_target
  by_cases ho : env.txOpen = false
  · rw [if_pos ho, ho]
    rfl
  · rw [if_neg ho]
    simp only
    have ho' : env.txOpen = true := by
      cases h : env.txOpen
      · exact absurd h ho
      · rfl
    by_cases hle : (updatePass env r tid).status ≤ 0
    · rw [if_pos hle, ho']
      simp [hle]
    · rw [if_neg hle]
      by_cases hc : env.commitOk
      · rw [if_pos hc, ho']
        simp [hle]
      · rw [if_neg hc, ho']
        simp [hle]

/-- The pass's status is nonpositive exactly when some recorded execution
status is (the walk and the subject stop at the first failure). -/
theorem updatePass_any_nonpos (env : Env) (r : Resolver) (tid : Nat) :
    ((updatePass env r tid).statuses.any (fun s => decide (s ≤ 0)) = true ↔
      (updatePass env r tid).status ≤ 0) := by
  unfold updatePass
  simp only
  by_cases hb : (walkDeps env tid (getTarget r tid).update_targets r 1
        (older_than_facts r (getTarget r tid))).2.2.1 &&
      decide (0 < (walkDeps env tid (getTarget r tid).update_targets r 1
        (older_than_facts r (getTarget r tid))).1)
  · rw [if_pos hb]
    have hb' := hb
    rw [Bool.and_eq_true] at hb'
    have hwpos : 0 < (walkDeps env tid (getTarget r tid).update_targets r 1
        (older_than_facts r (getTarget r tid))).1 :=
      of_decide_eq_true hb'.2
    have hany : (walkDeps env tid (getTarget r tid).update_targets r 1
        (older_than_facts r (getTarget r tid))).2.2.2.2.any
        (fun s => decide (s ≤ 0)) = false := by
      rw [Bool.eq_false_iff]
      intro hcon
      have := (walkDeps_any_nonpos env tid (getTarget r tid).update_targets
        r 1 (older_than_facts r (getTarget r tid)) (by norm_num)).mp hcon
      omega
    by_cases hpe : 0 < (env.exec tid (walkDeps env tid
        (getTarget r tid).update_targets r 1
        (older_than_facts r (getTarget r tid))).2.1.factStamps).1
    · rw [if_pos hpe]
      simp [List.any_append, hany]
    · rw [if_neg hpe]
      simp [List.any_append, hany]
  · rw [if_neg hb]
    simp only
    exact walkDeps_any_nonpos env tid _ r 1 _ (by norm_num)

/-- Claim C10: `rollback_transaction` is invoked on the open transaction
exactly when some procedure execution returned a status ≤ 0; when every
execution succeeded but `commit_transaction` returns false, the saved
stamps are restored and a negative error status is returned, yet
`rollback_transaction` is never called in that branch (only the failed
commit is observed). -/
theorem claim_C10 (env : Env) (r : Resolver) (tid : Nat)
    (hwf : ∀ id ∈ (getTarget r tid).update_targets, sliceOk r id) :
    ((update_target env r tid).rolledBack = true ↔
      env.txOpen = true ∧
      (update_target env r tid).statuses.any (fun s => decide (s ≤ 0)) = true) ∧
    (env.txOpen = true → env.commitOk = false →
      (update_target env r tid).statuses.all (fun s => decide (0 < s)) = true →
      (update_target env r tid).rolledBack = false ∧
      (update_target env r tid).status < 0 ∧
      (update_target env r tid).committed = false ∧
      (update_target env r tid).commitAttempted = true ∧
      ∀ id ∈ (getTarget r tid).update_targets,
        (getTarget (update_target env r tid).resolver id).fact_stamps =
          (getTarget r id).fact_stamps) := by
  constructor
  · rw [update_target_rolledBack, update_target_statuses]
    cases henv : env.txOpen with
    | false => simp [henv]
    | true =>
        rw [if_neg (by simp : ¬ (true = false))]
        simp only [Bool.true_and]
        constructor
        · intro h
          exact ⟨trivial, (updatePass_any_nonpos env r tid).mpr
            (of_decide_eq_true h)⟩
        · rintro ⟨-, h⟩
          exact decide_eq_true ((updatePass_any_nonpos env r tid).mp h)
  · intro ho hc hall
    rw [update_target_statuses, if_neg (by simp [ho])] at hall
    have hany : (updatePass env r tid).statuses.any
        (fun s => decide (s ≤ 0)) = false := by
      rw [Bool.eq_false_iff]
      intro hcon
      rw [List.any_eq_true] at hcon
      obtain ⟨s, hs, hdec⟩ := hcon
      rw [List.all_eq_true] at hall
      have h2 := hall s hs
      simp only [decide_eq_true_eq] at h2 hdec
      omega
    have hpos : ¬ (updatePass env r tid).status ≤ 0 := by
      intro hcon
      have := (updatePass_any_nonpos env r tid).mpr hcon
      rw [hany] at this
      cases this
    unfold update_target
    rw [if_neg (by simp [ho])]
    simp only
    rw [if_neg hpos, if_neg (by simp [hc])]
    refine ⟨rfl, ?_, rfl, rfl, ?_⟩
    · show (if env.commitErrno ≠ 0 then -(env.commitErrno : Int)
        else -(EINVAL : Int)) < 0
      by_cases he : env.commitErrno ≠ 0
      · rw [if_pos he]; omega
      · rw [if_neg he]; decide
    · exact restore_after_update env r tid hwf

/-- Witness for C10 on `rE` with a failing commit: both executions
succeed, commit fails, rollback is not called, the status is negative and
the dependency's stamps are restored. -/
theorem claim_C10_witness :
    ((update_target envCF rE 1).rolledBack = true ↔
      envCF.txOpen = true ∧
      (update_target envCF rE 1).statuses.any (fun s => decide (s ≤ 0)) = true) ∧
    ((update_target envCF rE 1).rolledBack = false ∧
      (update_target envCF rE 1).status < 0 ∧
      (update_target envCF rE 1).committed = false ∧
      (update_target envCF rE 1).commitAttempted = true ∧
      ∀ id ∈ (getTarget rE 1).update_targets,
        (getTarget (update_target envCF rE 1).resolver id).fact_stamps =
          (getTarget rE id).fact_stamps) :=
  ⟨(claim_C10 envCF rE 1 (by decide)).1,
    (claim_C10 envCF rE 1 (by decide)).2 (by decide) (by decide) (by decide)⟩

end Murphy
